import Mathlib

set_option maxRecDepth 4000

/-!
Shallow embedding of `prj1-sol/src/lib/lending-library.ts`: an in-memory
lending library holding a list of book records and a patron checkout map,
with operations `addBook`, `findBooks`, `checkoutBook` and `returnBook`,
all built on the shared request validator `validate`.

JavaScript numbers are modelled as rationals, untyped request objects as
field-indexed maps into an inductive `Value` type (with `undef` for an
absent field), and the mutable class state as explicit state passing.
-/

/-- A JavaScript-like value appearing in an untyped request object.
`undef` models an absent field (`req[key] === undefined`). -/
inductive Value where
  | undef
  | str (s : String)
  | num (q : ℚ)
  | arr (elems : List Value)

/-- A duck-typed request object, read by field name; a field that is not
present reads as `undef`. -/
abbrev Request := String → Value

/-- `x === undefined`. -/
def Value.isUndef : Value → Bool
  | .undef => true
  | _ => false

/-- `x === s` for a string literal `s` (strict equality). -/
def Value.eqStr : Value → String → Bool
  | .str a, s => a == s
  | _, _ => false

/-- `typeof x === "string"`. -/
def Value.isStr : Value → Bool
  | .str _ => true
  | _ => false

/-- `typeof x === "number"`. -/
def Value.isNum : Value → Bool
  | .num _ => true
  | _ => false

/-- `Number.isInteger(x)` (false on non-numbers). -/
def Value.isIntegerNum : Value → Bool
  | .num q => q.den == 1
  | _ => false

/-- `x > 0` (false on non-numbers, as for `undefined > 0`). -/
def Value.isPos : Value → Bool
  | .num q => decide (0 < q)
  | _ => false

/-- Read a value as a string (exact on values that passed a string type check). -/
def Value.asStr : Value → String
  | .str s => s
  | _ => ""

/-- Read a value as a number (exact on values that passed a number type check). -/
def Value.asNum : Value → ℚ
  | .num q => q
  | _ => 0

/-- Read a value as an array of strings (exact after the `authors` type check). -/
def Value.asStrList : Value → List String
  | .arr xs => xs.map Value.asStr
  | _ => []

/-- Error codes of the `Errors` module that the library produces. -/
inductive ErrCode where
  | MISSING
  | BAD_TYPE
  | BAD_REQ
deriving DecidableEq

/-- A validation error: its code plus the offending field name, which the
code also reports as the widget hint (`{code, widget: key}`). -/
structure Err where
  code : ErrCode
  widget : String
deriving DecidableEq

/-- `Errors.Result<α>`: either a success value or a structured error. -/
inductive LibResult (α : Type) where
  | ok (val : α)
  | err (e : Err)
deriving DecidableEq

/-- `XBook`: a fully populated book record. -/
structure XBook where
  isbn : String
  title : String
  authors : List String
  pages : ℚ
  year : ℚ
  publisher : String
  nCopies : ℚ
deriving DecidableEq

/-- The patron checkout map: a JS `Map<string, XBook[]>`, modelled as an
insertion-ordered association list. -/
abbrev CheckoutMap := List (String × List XBook)

/-- The library state: the book collection and the checkout map. -/
structure LendingLibrary where
  books : List XBook
  checkout : CheckoutMap
deriving DecidableEq

/-- `new LendingLibrary()`. -/
def emptyLibrary : LendingLibrary := ⟨[], []⟩

/-- `checkout.has(k)`. -/
def mapHas (m : CheckoutMap) (k : String) : Bool := m.any (fun e => e.1 == k)

/-- `checkout.get(k)`. -/
def mapGet (m : CheckoutMap) (k : String) : Option (List XBook) :=
  (m.find? (fun e => e.1 == k)).map (fun e => e.2)

/-- The private `getBook` helper: first record in `books` with this isbn. -/
def LendingLibrary.getBook (lib : LendingLibrary) (isbn : String) : Option XBook :=
  lib.books.find? (fun b => b.isbn == isbn)

/-- The private `areEqual` helper: book identity is isbn equality. -/
def areEqual (b1 b2 : XBook) : Bool := b1.isbn == b2.isbn

/-- The private `inStock` helper: counts the patrons whose checkout list
holds a book with this isbn and compares against `nCopies`. -/
def inStock (lib : LendingLibrary) (book : XBook) : Bool :=
  let count := lib.checkout.countP (fun e => e.2.any (fun b => areEqual b book))
  decide ((count : ℚ) < book.nCopies)

/-- First loop of `validate`: presence (`MISSING`) then type (`BAD_TYPE`),
in declared field order. -/
def checkTypes (req : Request) : List (String × (Value → Bool)) → Option Err
  | [] => none
  | (key, tp) :: rest =>
    if (req key).isUndef then some ⟨.MISSING, key⟩
    else if !tp (req key) then some ⟨.BAD_TYPE, key⟩
    else checkTypes req rest

/-- Second loop of `validate`: each field's semantic predicates in order,
`BAD_REQ` on the first failure. -/
def checkSemantics (req : Request) : List (String × List (Value → Bool)) → Option Err
  | [] => none
  | (key, preds) :: rest =>
    if preds.all (fun pr => pr (req key)) then checkSemantics req rest
    else some ⟨.BAD_REQ, key⟩

/-- The shared `validate` utility: all presence/type checks run before any
semantic predicate; `none` is the success marker. -/
def validate (req : Request) (typeChecker : List (String × (Value → Bool)))
    (semantics : List (String × List (Value → Bool))) : Option Err :=
  match checkTypes req typeChecker with
  | some e => some e
  | none => checkSemantics req semantics

/-- The `authors` type predicate: a non-empty array of strings. -/
def isStringArr : Value → Bool := fun x =>
  match x with
  | .arr xs => xs.all Value.isStr && decide (xs.length > 0)
  | _ => false

/-- `addBook`'s type checker, in declared field order. -/
def addTypeChecker : List (String × (Value → Bool)) :=
  [("isbn", Value.isStr),
   ("title", Value.isStr),
   ("authors", isStringArr),
   ("pages", Value.isNum),
   ("year", Value.isNum),
   ("publisher", Value.isStr),
   ("nCopies", Value.isNum)]

/-- `addBook`'s semantic checker. -/
def addSemChecker : List (String × List (Value → Bool)) :=
  [("pages", [Value.isIntegerNum, Value.isPos]),
   ("year", [Value.isIntegerNum, Value.isPos]),
   ("nCopies", [Value.isIntegerNum, Value.isPos])]

/-- `{nCopies: 1, ...req}`: the request with `nCopies` defaulted to 1. -/
def withDefaultCopies (req : Request) : Request := fun k =>
  if k == "nCopies" && (req "nCopies").isUndef then .num 1 else req k

/-- `addBook`: validate, then push a normalized record and return it. -/
def addBook (lib : LendingLibrary) (req : Request) : LibResult XBook × LendingLibrary :=
  match validate (withDefaultCopies req) addTypeChecker addSemChecker with
  | some e => (.err e, lib)
  | none =>
    let bookToAdd : XBook :=
      { isbn := (req "isbn").asStr
        title := (req "title").asStr
        authors := (req "authors").asStrList
        pages := (req "pages").asNum
        year := (req "year").asNum
        publisher := (req "publisher").asStr
        nCopies := (match req "nCopies" with | .undef => Value.num 1 | v => v).asNum }
    (.ok bookToAdd, { lib with books := lib.books ++ [bookToAdd] })

/-- `\w` (alphanumeric or underscore). -/
def isWordChar (c : Char) : Bool := c.isAlphanum || c == '_'

/-- Worker for `/\w+/g`: splits into maximal runs of word characters. -/
def wordsAux : List Char → List Char → List (List Char)
  | [], acc => if acc = [] then [] else [acc]
  | c :: cs, acc =>
    if isWordChar c then wordsAux cs (acc ++ [c])
    else if acc = [] then wordsAux cs [] else acc :: wordsAux cs []

/-- `s.match(/\w+/g) ?? []`. -/
def matchWords (s : String) : List (List Char) := wordsAux s.data []

/-- `s.toLowerCase()`. -/
def lowerStr (s : String) : String := String.mk (s.data.map Char.toLower)

/-- Boolean prefix test on character lists. -/
def isPrefixB : List Char → List Char → Bool
  | [], _ => true
  | _ :: _, [] => false
  | a :: as, b :: bs => a == b && isPrefixB as bs

/-- `text.includes(word)`: boolean substring test. -/
def isInfixB (w : List Char) : List Char → Bool
  | [] => isPrefixB w []
  | c :: ts => isPrefixB w (c :: ts) || isInfixB w ts

/-- `[title, authors.join(' '), publisher].join(' ')`. -/
def bookText (b : XBook) : String :=
  String.intercalate " " [b.title, String.intercalate " " b.authors, b.publisher]

/-- The comparator `(a, b) => a.title.localeCompare(b.title)`, modelled as
the lexicographic order on titles. -/
def titleLe (a b : XBook) : Prop := a.title ≤ b.title

instance : DecidableRel titleLe := fun a b => inferInstanceAs (Decidable (a.title ≤ b.title))

instance : IsTotal XBook titleLe := ⟨fun a b => le_total a.title b.title⟩

instance : IsTrans XBook titleLe := ⟨fun _ _ _ h1 h2 => le_trans h1 h2⟩

/-- `findBooks`'s type checker. -/
def findTypeChecker : List (String × (Value → Bool)) := [("search", Value.isStr)]

/-- `findBooks`'s semantic checker: some extracted word has length > 1. -/
def findSemChecker : List (String × List (Value → Bool)) :=
  [("search", [fun x => (matchWords x.asStr).any (fun w => decide (w.length > 1))])]

/-- The words of length > 1 extracted from the lower-cased search text. -/
def searchWords (s : String) : List (List Char) :=
  (matchWords (lowerStr s)).filter (fun w => decide (w.length > 1))

/-- Whether a book's lower-cased text contains every search word. -/
def bookMatches (words : List (List Char)) (b : XBook) : Bool :=
  words.all (fun w => isInfixB w (lowerStr (bookText b)).data)

/-- `findBooks`: validate, filter on all words, sort ascending by title. -/
def findBooks (lib : LendingLibrary) (req : Request) :
    LibResult (List XBook) × LendingLibrary :=
  match validate req findTypeChecker findSemChecker with
  | some e => (.err e, lib)
  | none =>
    let words := searchWords (req "search").asStr
    let matchingBooks := lib.books.filter (bookMatches words)
    (.ok (matchingBooks.insertionSort titleLe), lib)

/-- `checkout.has(p) ? checkout.get(p)!.push(bk) : checkout.set(p, [bk])`. -/
def checkoutInsert (p : String) (bk : XBook) : CheckoutMap → CheckoutMap
  | [] => [(p, [bk])]
  | e :: rest => if e.1 == p then (e.1, e.2 ++ [bk]) :: rest else e :: checkoutInsert p bk rest

/-- The `splice` loop of `returnBook`: drop the first matching entry. -/
def removeFirst (bk : XBook) : List XBook → List XBook
  | [] => []
  | b :: bs => if areEqual b bk then bs else b :: removeFirst bk bs

/-- Apply `removeFirst` inside the patron's entry of the checkout map. -/
def returnRemove (p : String) (bk : XBook) : CheckoutMap → CheckoutMap
  | [] => []
  | e :: rest => if e.1 == p then (e.1, removeFirst bk e.2) :: rest else e :: returnRemove p bk rest

/-- The type checker shared by `checkoutBook` and `returnBook`. -/
def coTypeChecker : List (String × (Value → Bool)) :=
  [("patronId", Value.isStr), ("isbn", Value.isStr)]

/-- `checkoutBook`'s semantic checker: non-empty patron; then for isbn, in
order: the book exists, it is in stock, and the patron does not already
hold it.  The `none` branches are unreachable once the existence predicate
has passed (in the source they would dereference `null`). -/
def coSemChecker (lib : LendingLibrary) (req : Request) :
    List (String × List (Value → Bool)) :=
  [("patronId", [fun x => !(x.eqStr "")]),
   ("isbn",
    [fun x => lib.books.any (fun b => x.eqStr b.isbn),
     fun x => match lib.getBook x.asStr with
       | some bk => inStock lib bk
       | none => false,
     fun x =>
       let p := req "patronId"
       if mapHas lib.checkout p.asStr then
         match lib.getBook x.asStr with
         | some bk => !((mapGet lib.checkout p.asStr).getD []).any (fun y => areEqual bk y)
         | none => true
       else true])]

/-- `checkoutBook`: validate, then append the book reference to the
patron's checkout list (creating the list on first checkout). -/
def checkoutBook (lib : LendingLibrary) (req : Request) :
    LibResult Unit × LendingLibrary :=
  match validate req coTypeChecker (coSemChecker lib req) with
  | some e => (.err e, lib)
  | none =>
    match lib.getBook (req "isbn").asStr with
    | some bk =>
      (.ok (), { lib with checkout := checkoutInsert (req "patronId").asStr bk lib.checkout })
    | none => (.ok (), lib)

/-- `returnBook`'s semantic checker: non-empty patron; then for isbn: the
book exists and the patron currently has it checked out. -/
def retSemChecker (lib : LendingLibrary) (req : Request) :
    List (String × List (Value → Bool)) :=
  [("patronId", [fun x => !(x.eqStr "")]),
   ("isbn",
    [fun x => lib.books.any (fun b => x.eqStr b.isbn),
     fun x => ((mapGet lib.checkout (req "patronId").asStr).getD []).any
       (fun b => x.eqStr b.isbn)])]

/-- `returnBook`: validate, then remove the first matching entry from the
patron's checkout list. -/
def returnBook (lib : LendingLibrary) (req : Request) :
    LibResult Unit × LendingLibrary :=
  match validate req coTypeChecker (retSemChecker lib req) with
  | some e => (.err e, lib)
  | none =>
    match lib.getBook (req "isbn").asStr with
    | some bk =>
      (.ok (), { lib with checkout := returnRemove (req "patronId").asStr bk lib.checkout })
    | none => (.ok (), lib)

/-- Library states reachable from a fresh `LendingLibrary` by any sequence
of the four operations. -/
inductive Reachable : LendingLibrary → Prop where
  | init : Reachable emptyLibrary
  | add {lib} (req : Request) : Reachable lib → Reachable (addBook lib req).2
  | find {lib} (req : Request) : Reachable lib → Reachable (findBooks lib req).2
  | co {lib} (req : Request) : Reachable lib → Reachable (checkoutBook lib req).2
  | ret {lib} (req : Request) : Reachable lib → Reachable (returnBook lib req).2

/-- Total number of outstanding checkout entries for an isbn. -/
def entriesCount (m : CheckoutMap) (s : String) : ℕ :=
  (m.map (fun e => e.2.countP (fun b => b.isbn == s))).sum

/-- Number of patrons holding at least one entry for an isbn (the count
computed by `inStock`). -/
def patronsHolding (m : CheckoutMap) (s : String) : ℕ :=
  m.countP (fun e => e.2.any (fun b => b.isbn == s))

/-- Whether the patron's checkout list holds an entry with this isbn. -/
def patronHolds (m : CheckoutMap) (p s : String) : Bool :=
  ((mapGet m p).getD []).any (fun b => b.isbn == s)

/-- The state invariant maintained by all four operations. -/
structure LibInv (lib : LendingLibrary) : Prop where
  patronOnce : ∀ e ∈ lib.checkout, (e.2.map XBook.isbn).Nodup
  entryInCatalog : ∀ e ∈ lib.checkout, ∀ b ∈ e.2, ∃ b2 ∈ lib.books, b2.isbn = b.isbn
  copiesInt : ∀ b ∈ lib.books, ∃ k : ℤ, b.nCopies = (k : ℚ) ∧ 1 ≤ k
  stockBound : ∀ s b, lib.getBook s = some b →
    (entriesCount lib.checkout s : ℚ) ≤ b.nCopies

/-! ### Basic lemmas about values and the validator -/

theorem Value.isStr_iff {v : Value} : v.isStr = true ↔ ∃ s, v = .str s := by
  cases v <;> simp [Value.isStr]

theorem Value.isNum_iff {v : Value} : v.isNum = true ↔ ∃ q, v = .num q := by
  cases v <;> simp [Value.isNum]

theorem strBeq_comm (a b : String) : (a == b) = (b == a) := by
  by_cases h : a = b
  · subst h; rfl
  · simp [h, Ne.symm h]

/-- All presence/type checks pass. -/
def typesPass (req : Request) (tc : List (String × (Value → Bool))) : Prop :=
  ∀ e ∈ tc, (req e.1).isUndef = false ∧ e.2 (req e.1) = true

/-- All semantic predicates pass. -/
def semPass (req : Request) (sem : List (String × List (Value → Bool))) : Prop :=
  ∀ e ∈ sem, ∀ pr ∈ e.2, pr (req e.1) = true

theorem checkTypes_eq_none {req : Request} {tc : List (String × (Value → Bool))} :
    checkTypes req tc = none ↔ typesPass req tc := by
  induction tc with
  | nil => simp [checkTypes, typesPass]
  | cons e rest ih =>
    obtain ⟨key, tp⟩ := e
    unfold checkTypes
    by_cases h1 : (req key).isUndef = true
    · simp [h1, typesPass]
    · replace h1 : (req key).isUndef = false := by simpa using h1
      by_cases h2 : tp (req key) = true
      · simp [h1, h2, ih, typesPass, List.forall_mem_cons]
      · replace h2 : tp (req key) = false := by simpa using h2
        simp [h1, h2, typesPass, List.forall_mem_cons]

theorem checkSemantics_eq_none {req : Request} {sem : List (String × List (Value → Bool))} :
    checkSemantics req sem = none ↔ semPass req sem := by
  induction sem with
  | nil => simp [checkSemantics, semPass]
  | cons e rest ih =>
    obtain ⟨key, preds⟩ := e
    unfold checkSemantics
    by_cases h1 : preds.all (fun pr => pr (req key)) = true
    · simp only [List.all_eq_true] at h1 ⊢
      rw [if_pos h1]
      simp only [ih, semPass, List.forall_mem_cons, Prod.forall]
      constructor
      · exact fun h => ⟨h1, h⟩
      · exact fun h => h.2
    · replace h1 : ¬ ∀ pr ∈ preds, pr (req key) = true := by
        simpa [List.all_eq_true] using h1
      simp only [List.all_eq_true]
      rw [if_neg h1]
      simp [semPass, List.forall_mem_cons, h1]

theorem validate_eq_none {req : Request} {tc : List (String × (Value → Bool))}
    {sem : List (String × List (Value → Bool))} :
    validate req tc sem = none ↔ typesPass req tc ∧ semPass req sem := by
  rw [← checkTypes_eq_none, ← checkSemantics_eq_none]
  unfold validate
  cases h : checkTypes req tc <;> simp [h]

theorem checkTypes_append_missing {req : Request} {tc1 tc2 : List (String × (Value → Bool))}
    {key : String} {tp : Value → Bool} (h1 : typesPass req tc1)
    (h2 : (req key).isUndef = true) :
    checkTypes req (tc1 ++ (key, tp) :: tc2) = some ⟨.MISSING, key⟩ := by
  induction tc1 with
  | nil => simp [checkTypes, h2]
  | cons e rest ih =>
    obtain ⟨k0, p0⟩ := e
    have he1 : (req k0).isUndef = false := (h1 (k0, p0) (List.mem_cons_self _ _)).1
    have he2 : p0 (req k0) = true := (h1 (k0, p0) (List.mem_cons_self _ _)).2
    simp only [List.cons_append]
    unfold checkTypes
    rw [he1, he2]
    simpa using ih fun x hx => h1 x (List.mem_cons_of_mem _ hx)

theorem checkTypes_append_badtype {req : Request} {tc1 tc2 : List (String × (Value → Bool))}
    {key : String} {tp : Value → Bool} (h1 : typesPass req tc1)
    (h2 : (req key).isUndef = false) (h3 : tp (req key) = false) :
    checkTypes req (tc1 ++ (key, tp) :: tc2) = some ⟨.BAD_TYPE, key⟩ := by
  induction tc1 with
  | nil => simp [checkTypes, h2, h3]
  | cons e rest ih =>
    obtain ⟨k0, p0⟩ := e
    have he1 : (req k0).isUndef = false := (h1 (k0, p0) (List.mem_cons_self _ _)).1
    have he2 : p0 (req k0) = true := (h1 (k0, p0) (List.mem_cons_self _ _)).2
    simp only [List.cons_append]
    unfold checkTypes
    rw [he1, he2]
    simpa using ih fun x hx => h1 x (List.mem_cons_of_mem _ hx)

theorem checkSemantics_append_badreq {req : Request}
    {sem1 sem2 : List (String × List (Value → Bool))} {key : String}
    {preds : List (Value → Bool)} (h1 : semPass req sem1)
    (h2 : preds.all (fun pr => pr (req key)) = false) :
    checkSemantics req (sem1 ++ (key, preds) :: sem2) = some ⟨.BAD_REQ, key⟩ := by
  induction sem1 with
  | nil =>
    simp only [List.nil_append]
    unfold checkSemantics
    rw [h2]
    simp
  | cons e rest ih =>
    obtain ⟨k0, ps0⟩ := e
    have he : ∀ pr ∈ ps0, pr (req k0) = true := fun pr hpr =>
      h1 (k0, ps0) (List.mem_cons_self _ _) pr hpr
    simp only [List.cons_append]
    unfold checkSemantics
    rw [if_pos (by simp only [List.all_eq_true]; exact he)]
    exact ih fun x hx => h1 x (List.mem_cons_of_mem _ hx)

theorem validate_missing {req : Request} {tc1 tc2 : List (String × (Value → Bool))}
    {key : String} {tp : Value → Bool} {sem : List (String × List (Value → Bool))}
    (h1 : typesPass req tc1) (h2 : (req key).isUndef = true) :
    validate req (tc1 ++ (key, tp) :: tc2) sem = some ⟨.MISSING, key⟩ := by
  unfold validate
  rw [checkTypes_append_missing h1 h2]

theorem validate_badtype {req : Request} {tc1 tc2 : List (String × (Value → Bool))}
    {key : String} {tp : Value → Bool} {sem : List (String × List (Value → Bool))}
    (h1 : typesPass req tc1) (h2 : (req key).isUndef = false) (h3 : tp (req key) = false) :
    validate req (tc1 ++ (key, tp) :: tc2) sem = some ⟨.BAD_TYPE, key⟩ := by
  unfold validate
  rw [checkTypes_append_badtype h1 h2 h3]

theorem validate_badreq {req : Request} {tc : List (String × (Value → Bool))}
    {sem1 sem2 : List (String × List (Value → Bool))} {key : String}
    {preds : List (Value → Bool)} (ht : typesPass req tc) (h1 : semPass req sem1)
    (h2 : preds.all (fun pr => pr (req key)) = false) :
    validate req tc (sem1 ++ (key, preds) :: sem2) = some ⟨.BAD_REQ, key⟩ := by
  unfold validate
  rw [checkTypes_eq_none.2 ht]
  exact checkSemantics_append_badreq h1 h2

/-! ### Lemmas about the checkout map and book lookup -/

theorem mapGet_cons {e0 : String × List XBook} {rest : CheckoutMap} {k : String} :
    mapGet (e0 :: rest) k = if e0.1 == k then some e0.2 else mapGet rest k := by
  unfold mapGet
  rw [List.find?_cons]
  cases h : e0.1 == k <;> simp [h]

theorem mapGet_eq_none_of_not_has {m : CheckoutMap} {k : String}
    (h : mapHas m k = false) : mapGet m k = none := by
  induction m with
  | nil => rfl
  | cons e0 rest ih =>
    unfold mapHas at h
    simp only [List.any_cons, Bool.or_eq_false_iff] at h
    rw [mapGet_cons, if_neg (by simp [h.1]), ih h.2]

theorem mapHas_of_mapGet_some {m : CheckoutMap} {k : String} {l : List XBook}
    (h : mapGet m k = some l) : mapHas m k = true := by
  cases hh : mapHas m k with
  | true => rfl
  | false => rw [mapGet_eq_none_of_not_has hh] at h; cases h

theorem mapGet_some_mem {m : CheckoutMap} {k : String} {l : List XBook}
    (h : mapGet m k = some l) : (k, l) ∈ m := by
  induction m with
  | nil => cases h
  | cons e0 rest ih =>
    rw [mapGet_cons] at h
    by_cases h0 : e0.1 == k
    · rw [if_pos h0] at h
      have hk : e0.1 = k := by simpa using h0
      obtain ⟨e1, e2⟩ := e0
      simp only [Option.some.injEq] at h
      simp only at hk h
      simp [hk, h]
    · rw [if_neg h0] at h
      exact List.mem_cons_of_mem _ (ih h)

theorem getBook_isbn {lib : LendingLibrary} {s : String} {bk : XBook}
    (h : lib.getBook s = some bk) : bk.isbn = s := by
  have := List.find?_some h
  simpa using this

theorem getBook_mem {lib : LendingLibrary} {s : String} {bk : XBook}
    (h : lib.getBook s = some bk) : bk ∈ lib.books :=
  List.mem_of_find?_eq_some h

theorem getBook_eq_none {lib : LendingLibrary} {s : String} :
    lib.getBook s = none ↔ ∀ b ∈ lib.books, b.isbn ≠ s := by
  unfold LendingLibrary.getBook
  rw [List.find?_eq_none]
  simp

theorem getBook_isSome_of_mem {lib : LendingLibrary} {b : XBook} (hm : b ∈ lib.books) :
    ∃ bk, lib.getBook b.isbn = some bk := by
  cases h : lib.getBook b.isbn with
  | none => exact absurd rfl (getBook_eq_none.1 h b hm)
  | some bk => exact ⟨bk, rfl⟩

/-! ### Lemmas about `checkoutInsert`, `removeFirst`, `returnRemove` -/

theorem checkoutInsert_elim {p : String} {bk : XBook} {m : CheckoutMap} :
    ∀ e ∈ checkoutInsert p bk m,
      e ∈ m ∨ (∃ l, mapGet m p = some l ∧ e = (p, l ++ [bk])) ∨
        (mapGet m p = none ∧ e = (p, [bk])) := by
  induction m with
  | nil =>
    intro e he
    simp only [checkoutInsert, List.mem_singleton] at he
    exact Or.inr (Or.inr ⟨rfl, he⟩)
  | cons e0 rest ih =>
    intro e he
    by_cases h0 : e0.1 == p
    · simp only [checkoutInsert, if_pos h0, List.mem_cons] at he
      rcases he with he | he
      · refine Or.inr (Or.inl ⟨e0.2, ?_, ?_⟩)
        · rw [mapGet_cons, if_pos h0]
        · have h1 : e0.1 = p := by simpa using h0
          rw [he, h1]
      · exact Or.inl (List.mem_cons_of_mem _ he)
    · have h0' : (e0.1 == p) = false := by simpa using h0
      simp only [checkoutInsert, h0', Bool.false_eq_true, if_false, List.mem_cons] at he
      rcases he with he | he
      · exact Or.inl (by simp [he])
      · have hget : mapGet (e0 :: rest) p = mapGet rest p := by
          rw [mapGet_cons, if_neg (by simp [h0'])]
        rcases ih e he with h | ⟨l, hl, hel⟩ | ⟨hn, hel⟩
        · exact Or.inl (List.mem_cons_of_mem _ h)
        · exact Or.inr (Or.inl ⟨l, by rw [hget]; exact hl, hel⟩)
        · exact Or.inr (Or.inr ⟨by rw [hget]; exact hn, hel⟩)

theorem removeFirst_sublist (bk : XBook) (l : List XBook) :
    (removeFirst bk l).Sublist l := by
  induction l with
  | nil => simp [removeFirst]
  | cons b bs ih =>
    unfold removeFirst
    by_cases h : areEqual b bk
    · rw [if_pos h]; exact List.sublist_cons_self b bs
    · rw [if_neg h]; exact ih.cons₂ b

theorem returnRemove_elim {p : String} {bk : XBook} {m : CheckoutMap} :
    ∀ e ∈ returnRemove p bk m,
      e ∈ m ∨ ∃ l, mapGet m p = some l ∧ e = (p, removeFirst bk l) := by
  induction m with
  | nil => intro e he; simp [returnRemove] at he
  | cons e0 rest ih =>
    intro e he
    by_cases h0 : e0.1 == p
    · simp only [returnRemove, if_pos h0, List.mem_cons] at he
      rcases he with he | he
      · refine Or.inr ⟨e0.2, ?_, ?_⟩
        · rw [mapGet_cons, if_pos h0]
        · have h1 : e0.1 = p := by simpa using h0
          rw [he, h1]
      · exact Or.inl (List.mem_cons_of_mem _ he)
    · have h0' : (e0.1 == p) = false := by simpa using h0
      simp only [returnRemove, h0', Bool.false_eq_true, if_false, List.mem_cons] at he
      rcases he with he | he
      · exact Or.inl (by simp [he])
      · have hget : mapGet (e0 :: rest) p = mapGet rest p := by
          rw [mapGet_cons, if_neg (by simp [h0'])]
        rcases ih e he with h | ⟨l, hl, hel⟩
        · exact Or.inl (List.mem_cons_of_mem _ h)
        · exact Or.inr ⟨l, by rw [hget]; exact hl, hel⟩

theorem mapGet_checkoutInsert_self (p : String) (bk : XBook) (m : CheckoutMap) :
    mapGet (checkoutInsert p bk m) p = some ((mapGet m p).getD [] ++ [bk]) := by
  induction m with
  | nil => simp [checkoutInsert, mapGet]
  | cons e0 rest ih =>
    by_cases h0 : e0.1 == p
    · simp only [checkoutInsert, if_pos h0]
      rw [mapGet_cons, if_pos h0, mapGet_cons]
      simp only at h0 ⊢
      rw [if_pos h0]
      rfl
    · have h0' : (e0.1 == p) = false := by simpa using h0
      simp only [checkoutInsert, h0', Bool.false_eq_true, if_false]
      rw [mapGet_cons, if_neg (by simp [h0']), mapGet_cons, if_neg (by simp [h0'])]
      exact ih

theorem mapGet_checkoutInsert_other {p k : String} (hne : k ≠ p) (bk : XBook)
    (m : CheckoutMap) : mapGet (checkoutInsert p bk m) k = mapGet m k := by
  induction m with
  | nil =>
    simp only [checkoutInsert]
    rw [mapGet_cons, if_neg (by simp [Ne.symm hne])]
  | cons e0 rest ih =>
    by_cases h0 : e0.1 == p
    · have h1 : e0.1 = p := by simpa using h0
      simp only [checkoutInsert, if_pos h0]
      rw [mapGet_cons, mapGet_cons]
      simp only
      rw [if_neg (by simp [h1, Ne.symm hne]), if_neg (by simp [h1, Ne.symm hne])]
    · have h0' : (e0.1 == p) = false := by simpa using h0
      simp only [checkoutInsert, h0', Bool.false_eq_true, if_false]
      rw [mapGet_cons, mapGet_cons]
      by_cases hk : e0.1 == k
      · rw [if_pos hk, if_pos hk]
      · rw [if_neg hk, if_neg hk]
        exact ih

/-! ### Counting lemmas -/

theorem entriesCount_nil {s : String} : entriesCount [] s = 0 := rfl

theorem entriesCount_cons {e : String × List XBook} {m : CheckoutMap} {s : String} :
    entriesCount (e :: m) s = e.2.countP (fun b => b.isbn == s) + entriesCount m s := by
  simp [entriesCount]

theorem entriesCount_checkoutInsert (p : String) (bk : XBook) (m : CheckoutMap) (s : String) :
    entriesCount (checkoutInsert p bk m) s =
      entriesCount m s + (if bk.isbn == s then 1 else 0) := by
  induction m with
  | nil =>
    by_cases hb : bk.isbn == s <;>
      simp [checkoutInsert, entriesCount, List.countP_cons, hb]
  | cons e0 rest ih =>
    by_cases h0 : e0.1 == p
    · simp only [checkoutInsert, if_pos h0]
      rw [entriesCount_cons, entriesCount_cons, List.countP_append]
      have h1 : List.countP (fun b => b.isbn == s) [bk] = if bk.isbn == s then 1 else 0 := by
        by_cases hb : bk.isbn == s
        · simp [hb]
        · simp [hb]
      rw [h1]
      by_cases hb : bk.isbn == s
      · simp [hb]
        omega
      · simp [hb]
    · have h0' : (e0.1 == p) = false := by simpa using h0
      simp only [checkoutInsert, h0', Bool.false_eq_true, if_false]
      rw [entriesCount_cons, entriesCount_cons, ih]
      omega

theorem entriesCount_returnRemove_le (p : String) (bk : XBook) (m : CheckoutMap)
    (s : String) : entriesCount (returnRemove p bk m) s ≤ entriesCount m s := by
  induction m with
  | nil => simp [returnRemove]
  | cons e0 rest ih =>
    by_cases h0 : e0.1 == p
    · simp only [returnRemove, if_pos h0]
      rw [entriesCount_cons, entriesCount_cons]
      have hle : List.countP (fun b => b.isbn == s) (removeFirst bk e0.2) ≤
          List.countP (fun b => b.isbn == s) e0.2 :=
        List.Sublist.countP_le (fun b => b.isbn == s) (removeFirst_sublist bk e0.2)
      dsimp only at *
      omega
    · have h0' : (e0.1 == p) = false := by simpa using h0
      simp only [returnRemove, h0', Bool.false_eq_true, if_false]
      rw [entriesCount_cons, entriesCount_cons]
      omega

theorem countP_isbn_eq_count {l : List XBook} {s : String} :
    l.countP (fun b => b.isbn == s) = (l.map XBook.isbn).count s := by
  rw [List.count, List.countP_map]
  rfl

theorem entriesCount_eq_patronsHolding {m : CheckoutMap} {s : String}
    (h : ∀ e ∈ m, (e.2.map XBook.isbn).Nodup) :
    entriesCount m s = patronsHolding m s := by
  induction m with
  | nil => rfl
  | cons e0 rest ih =>
    rw [entriesCount_cons]
    unfold patronsHolding
    rw [List.countP_cons]
    have hrest := ih fun e he => h e (List.mem_cons_of_mem _ he)
    unfold patronsHolding at hrest
    have hhead : e0.2.countP (fun b => b.isbn == s) =
        if e0.2.any (fun b => b.isbn == s) then 1 else 0 := by
      by_cases hany : e0.2.any (fun b => b.isbn == s)
      · rw [if_pos hany]
        simp only [List.any_eq_true] at hany
        obtain ⟨b, hb, hbs⟩ := hany
        have h1 : 0 < e0.2.countP (fun b => b.isbn == s) :=
          List.countP_pos_iff.2 ⟨b, hb, hbs⟩
        have h2 : e0.2.countP (fun b => b.isbn == s) ≤ 1 := by
          rw [countP_isbn_eq_count]
          exact List.nodup_iff_count_le_one.1 (h e0 (List.mem_cons_self _ _)) s
        omega
      · rw [if_neg hany]
        simp only [List.any_eq_true] at hany
        rw [List.countP_eq_zero]
        intro b hb
        exact fun hc => hany ⟨b, hb, hc⟩
    rw [hhead, hrest]
    exact Nat.add_comm _ _

theorem patronsHolding_le_entriesCount (m : CheckoutMap) (s : String) :
    patronsHolding m s ≤ entriesCount m s := by
  induction m with
  | nil => simp [patronsHolding, entriesCount]
  | cons e0 rest ih =>
    rw [entriesCount_cons]
    unfold patronsHolding
    rw [List.countP_cons]
    unfold patronsHolding at ih
    by_cases hany : e0.2.any (fun b => b.isbn == s)
    · simp only [List.any_eq_true] at hany
      obtain ⟨b, hb, hbs⟩ := hany
      have h1 : 0 < e0.2.countP (fun b => b.isbn == s) :=
        List.countP_pos_iff.2 ⟨b, hb, hbs⟩
      simp only [List.any_eq_true]
      rw [if_pos ⟨b, hb, hbs⟩]
      omega
    · simp only [List.any_eq_true] at hany
      simp only [List.any_eq_true]
      rw [if_neg hany]
      omega

theorem entriesCount_eq_zero {m : CheckoutMap} {s : String}
    (h : ∀ e ∈ m, ∀ b ∈ e.2, b.isbn ≠ s) : entriesCount m s = 0 := by
  induction m with
  | nil => rfl
  | cons e0 rest ih =>
    rw [entriesCount_cons, ih fun e he => h e (List.mem_cons_of_mem _ he)]
    have : e0.2.countP (fun b => b.isbn == s) = 0 := by
      rw [List.countP_eq_zero]
      intro b hb
      simp [h e0 (List.mem_cons_self _ _) b hb]
    omega

theorem inStock_iff {lib : LendingLibrary} {bk : XBook} :
    inStock lib bk = true ↔ (patronsHolding lib.checkout bk.isbn : ℚ) < bk.nCopies := by
  unfold inStock patronsHolding areEqual
  simp

theorem succ_le_of_cast_lt {c : ℕ} {k : ℤ} (h : (c : ℚ) < (k : ℚ)) :
    ((c + 1 : ℕ) : ℚ) ≤ (k : ℚ) := by
  have h1 : (c : ℤ) < k := by exact_mod_cast h
  have h2 : (c : ℤ) + 1 ≤ k := h1
  exact_mod_cast h2

/-! ### Characterization of `checkoutBook` -/

theorem coTypes_strings {req : Request} (h : typesPass req coTypeChecker) :
    ∃ p s, req "patronId" = .str p ∧ req "isbn" = .str s := by
  have h1 := h ("patronId", Value.isStr) (by simp [coTypeChecker])
  have h2 := h ("isbn", Value.isStr) (by simp [coTypeChecker])
  obtain ⟨p, hp⟩ := Value.isStr_iff.1 h1.2
  obtain ⟨s, hs⟩ := Value.isStr_iff.1 h2.2
  exact ⟨p, s, hp, hs⟩

theorem coTypes_of_strings {req : Request} {p s : String}
    (hp : req "patronId" = .str p) (hs : req "isbn" = .str s) :
    typesPass req coTypeChecker := by
  intro e he
  simp only [coTypeChecker, List.mem_cons, List.not_mem_nil, or_false] at he
  rcases he with he | he <;> subst he <;>
    simp [hp, hs, Value.isUndef, Value.isStr]

theorem coSem_facts {lib : LendingLibrary} {req : Request} {p s : String}
    (hp : req "patronId" = .str p) (hs : req "isbn" = .str s)
    (h : semPass req (coSemChecker lib req)) :
    p ≠ "" ∧ ∃ bk, lib.getBook s = some bk ∧ inStock lib bk = true ∧
      patronHolds lib.checkout p s = false := by
  simp only [coSemChecker, semPass, List.forall_mem_cons, List.not_mem_nil,
    false_implies, implies_true, and_true, List.forall_mem_nil] at h
  obtain ⟨h1, h2, h3, h4⟩ := h
  rw [hp] at h1 h4
  rw [hs] at h2 h3 h4
  have hpe : p ≠ "" := by
    simpa [Value.eqStr] using h1
  simp only [Value.asStr] at h3 h4
  cases hg : lib.getBook s with
  | none => rw [hg] at h3; cases h3
  | some bk =>
    rw [hg] at h3 h4
    refine ⟨hpe, bk, rfl, h3, ?_⟩
    have hisbn : bk.isbn = s := getBook_isbn hg
    by_cases hhas : mapHas lib.checkout p
    · rw [if_pos hhas] at h4
      simp only [Bool.not_eq_true', List.any_eq_false] at h4
      unfold patronHolds
      rw [List.any_eq_false]
      intro b hb
      have hb2 := h4 b hb
      simp only [areEqual, hisbn] at hb2
      simpa [strBeq_comm] using hb2
    · have hno : mapHas lib.checkout p = false := by simpa using hhas
      unfold patronHolds
      rw [mapGet_eq_none_of_not_has hno]
      rfl

theorem coSem_of_facts {lib : LendingLibrary} {req : Request} {p s : String} {bk : XBook}
    (hp : req "patronId" = .str p) (hpe : p ≠ "") (hs : req "isbn" = .str s)
    (hg : lib.getBook s = some bk) (hst : inStock lib bk = true)
    (hh : patronHolds lib.checkout p s = false) :
    semPass req (coSemChecker lib req) := by
  have hisbn : bk.isbn = s := getBook_isbn hg
  intro e he
  simp only [coSemChecker, List.mem_cons, List.not_mem_nil, or_false] at he
  rcases he with he | he <;> subst he
  · intro pr hpr
    simp only [List.mem_cons, List.not_mem_nil, or_false] at hpr
    subst hpr
    rw [hp]
    simpa [Value.eqStr] using hpe
  · intro pr hpr
    simp only [List.mem_cons, List.not_mem_nil, or_false] at hpr
    rcases hpr with hpr | hpr | hpr <;> subst hpr
    · rw [hs]
      simp only [List.any_eq_true]
      exact ⟨bk, getBook_mem hg, by simp [Value.eqStr, hisbn]⟩
    · rw [hs]
      simp only [Value.asStr]
      rw [hg]
      exact hst
    · rw [hs, hp]
      simp only [Value.asStr]
      by_cases hhas : mapHas lib.checkout p
      · rw [if_pos hhas, hg]
        unfold patronHolds at hh
        simp only [Bool.not_eq_true', List.any_eq_false] at hh ⊢
        intro y hy
        have hy2 := hh y hy
        simp only [areEqual, hisbn]
        simpa [strBeq_comm] using hy2
      · rw [if_neg hhas]

theorem checkout_succeeds {lib : LendingLibrary} {req : Request} {p s : String} {bk : XBook}
    (hp : req "patronId" = .str p) (hpe : p ≠ "") (hs : req "isbn" = .str s)
    (hg : lib.getBook s = some bk) (hst : inStock lib bk = true)
    (hh : patronHolds lib.checkout p s = false) :
    checkoutBook lib req =
      (.ok (), { lib with checkout := checkoutInsert p bk lib.checkout }) := by
  unfold checkoutBook
  rw [validate_eq_none.2 ⟨coTypes_of_strings hp hs, coSem_of_facts hp hpe hs hg hst hh⟩]
  rw [hs, hp]
  simp only [Value.asStr]
  rw [hg]

theorem checkoutBook_err_state {lib : LendingLibrary} {req : Request} {e : Err}
    (h : (checkoutBook lib req).1 = .err e) : (checkoutBook lib req).2 = lib := by
  unfold checkoutBook at h ⊢
  cases hv : validate req coTypeChecker (coSemChecker lib req) with
  | some e2 => rfl
  | none =>
    rw [hv] at h
    cases hg : lib.getBook (req "isbn").asStr with
    | some bk => rw [hg] at h; simp at h
    | none => rw [hg] at h

theorem checkout_ok_elim {lib : LendingLibrary} {req : Request}
    (h : (checkoutBook lib req).1 = .ok ()) :
    ∃ p s bk, req "patronId" = .str p ∧ p ≠ "" ∧ req "isbn" = .str s ∧
      lib.getBook s = some bk ∧ inStock lib bk = true ∧
      patronHolds lib.checkout p s = false ∧
      (checkoutBook lib req).2 =
        { lib with checkout := checkoutInsert p bk lib.checkout } := by
  cases hv : validate req coTypeChecker (coSemChecker lib req) with
  | some e =>
    unfold checkoutBook at h
    rw [hv] at h
    simp at h
  | none =>
    obtain ⟨ht, hsem⟩ := validate_eq_none.1 hv
    obtain ⟨p, s, hp, hs⟩ := coTypes_strings ht
    obtain ⟨hpe, bk, hg, hst, hh⟩ := coSem_facts hp hs hsem
    refine ⟨p, s, bk, hp, hpe, hs, hg, hst, hh, ?_⟩
    rw [checkout_succeeds hp hpe hs hg hst hh]

theorem checkout_fails {lib : LendingLibrary} {req : Request} {p s : String}
    (hp : req "patronId" = .str p) (hpe : p ≠ "") (hs : req "isbn" = .str s)
    (hbad : ¬∃ bk, lib.getBook s = some bk ∧ inStock lib bk = true ∧
      patronHolds lib.checkout p s = false) :
    checkoutBook lib req = (.err ⟨.BAD_REQ, "isbn"⟩, lib) := by
  have hsem1 : semPass req [("patronId", [fun x => !(x.eqStr "")])] := by
    intro e he
    simp only [List.mem_singleton] at he
    subst he
    intro pr hpr
    simp only [List.mem_singleton] at hpr
    subst hpr
    rw [hp]
    simpa [Value.eqStr] using hpe
  have hfail : ([fun x => lib.books.any (fun b => x.eqStr b.isbn),
      fun x => match lib.getBook x.asStr with
        | some bk => inStock lib bk
        | none => false,
      fun x =>
        let q := req "patronId"
        if mapHas lib.checkout q.asStr then
          match lib.getBook x.asStr with
          | some bk => !((mapGet lib.checkout q.asStr).getD []).any (fun y => areEqual bk y)
          | none => true
        else true] : List (Value → Bool)).all
        (fun pr => pr (req "isbn")) = false := by
    rw [← Bool.not_eq_true]
    intro hall
    have hsp : semPass req (coSemChecker lib req) := by
      intro e he
      simp only [coSemChecker, List.mem_cons, List.not_mem_nil, or_false] at he
      rcases he with he | he <;> subst he
      · exact hsem1 _ (List.mem_singleton_self _)
      · exact fun pr hpr => List.all_eq_true.1 hall pr hpr
    obtain ⟨_, bk, hgg, hss, hhh⟩ := coSem_facts hp hs hsp
    exact hbad ⟨bk, hgg, hss, hhh⟩
  have hv : validate req coTypeChecker (coSemChecker lib req) =
      some ⟨.BAD_REQ, "isbn"⟩ :=
    validate_badreq (coTypes_of_strings hp hs) hsem1 hfail
  unfold checkoutBook
  rw [hv]

/-! ### Characterization of `returnBook` -/

theorem retSem_facts {lib : LendingLibrary} {req : Request} {p s : String}
    (hp : req "patronId" = .str p) (hs : req "isbn" = .str s)
    (h : semPass req (retSemChecker lib req)) :
    p ≠ "" ∧ (∃ bk, lib.getBook s = some bk) ∧
      patronHolds lib.checkout p s = true := by
  simp only [retSemChecker, semPass, List.forall_mem_cons, List.not_mem_nil,
    false_implies, implies_true, and_true, List.forall_mem_nil] at h
  obtain ⟨h1, h2, h3⟩ := h
  rw [hp] at h1 h3
  rw [hs] at h2 h3
  have hpe : p ≠ "" := by simpa [Value.eqStr] using h1
  simp only [Value.asStr] at h3
  refine ⟨hpe, ?_, ?_⟩
  · simp only [List.any_eq_true] at h2
    obtain ⟨b, hb, hbs⟩ := h2
    have : b.isbn = s := by
      have := by simpa [Value.eqStr] using hbs
      exact this.symm
    cases hg : lib.getBook s with
    | none => exact absurd this (getBook_eq_none.1 hg b hb)
    | some bk => exact ⟨bk, rfl⟩
  · unfold patronHolds
    simp only [List.any_eq_true] at h3 ⊢
    obtain ⟨b, hb, hbs⟩ := h3
    exact ⟨b, hb, by simpa [Value.eqStr, strBeq_comm] using hbs⟩

theorem retSem_of_facts {lib : LendingLibrary} {req : Request} {p s : String} {bk : XBook}
    (hp : req "patronId" = .str p) (hpe : p ≠ "") (hs : req "isbn" = .str s)
    (hg : lib.getBook s = some bk) (hh : patronHolds lib.checkout p s = true) :
    semPass req (retSemChecker lib req) := by
  have hisbn : bk.isbn = s := getBook_isbn hg
  intro e he
  simp only [retSemChecker, List.mem_cons, List.not_mem_nil, or_false] at he
  rcases he with he | he <;> subst he
  · intro pr hpr
    simp only [List.mem_singleton] at hpr
    subst hpr
    rw [hp]
    simpa [Value.eqStr] using hpe
  · intro pr hpr
    simp only [List.mem_cons, List.not_mem_nil, or_false] at hpr
    rcases hpr with hpr | hpr <;> subst hpr
    · rw [hs]
      simp only [List.any_eq_true]
      exact ⟨bk, getBook_mem hg, by simp [Value.eqStr, hisbn]⟩
    · rw [hs, hp]
      simp only [Value.asStr]
      unfold patronHolds at hh
      simp only [List.any_eq_true] at hh ⊢
      obtain ⟨b, hb, hbs⟩ := hh
      exact ⟨b, hb, by simpa [Value.eqStr, strBeq_comm] using hbs⟩

theorem return_succeeds {lib : LendingLibrary} {req : Request} {p s : String} {bk : XBook}
    (hp : req "patronId" = .str p) (hpe : p ≠ "") (hs : req "isbn" = .str s)
    (hg : lib.getBook s = some bk) (hh : patronHolds lib.checkout p s = true) :
    returnBook lib req =
      (.ok (), { lib with checkout := returnRemove p bk lib.checkout }) := by
  unfold returnBook
  rw [validate_eq_none.2 ⟨coTypes_of_strings hp hs, retSem_of_facts hp hpe hs hg hh⟩]
  rw [hs, hp]
  simp only [Value.asStr]
  rw [hg]

theorem returnBook_err_state {lib : LendingLibrary} {req : Request} {e : Err}
    (h : (returnBook lib req).1 = .err e) : (returnBook lib req).2 = lib := by
  unfold returnBook at h ⊢
  cases hv : validate req coTypeChecker (retSemChecker lib req) with
  | some e2 => rfl
  | none =>
    rw [hv] at h
    cases hg : lib.getBook (req "isbn").asStr with
    | some bk => rw [hg] at h; simp at h
    | none => rw [hg] at h

theorem return_ok_elim {lib : LendingLibrary} {req : Request}
    (h : (returnBook lib req).1 = .ok ()) :
    ∃ p s bk, req "patronId" = .str p ∧ p ≠ "" ∧ req "isbn" = .str s ∧
      lib.getBook s = some bk ∧ patronHolds lib.checkout p s = true ∧
      (returnBook lib req).2 =
        { lib with checkout := returnRemove p bk lib.checkout } := by
  cases hv : validate req coTypeChecker (retSemChecker lib req) with
  | some e =>
    unfold returnBook at h
    rw [hv] at h
    simp at h
  | none =>
    obtain ⟨ht, hsem⟩ := validate_eq_none.1 hv
    obtain ⟨p, s, hp, hs⟩ := coTypes_strings ht
    obtain ⟨hpe, ⟨bk, hg⟩, hh⟩ := retSem_facts hp hs hsem
    refine ⟨p, s, bk, hp, hpe, hs, hg, hh, ?_⟩
    rw [return_succeeds hp hpe hs hg hh]

theorem return_fails {lib : LendingLibrary} {req : Request} {p s : String}
    (hp : req "patronId" = .str p) (hpe : p ≠ "") (hs : req "isbn" = .str s)
    (hbad : ¬((∃ bk, lib.getBook s = some bk) ∧
      patronHolds lib.checkout p s = true)) :
    returnBook lib req = (.err ⟨.BAD_REQ, "isbn"⟩, lib) := by
  have hsem1 : semPass req [("patronId", [fun x => !(x.eqStr "")])] := by
    intro e he
    simp only [List.mem_singleton] at he
    subst he
    intro pr hpr
    simp only [List.mem_singleton] at hpr
    subst hpr
    rw [hp]
    simpa [Value.eqStr] using hpe
  have hfail : ([fun x => lib.books.any (fun b => x.eqStr b.isbn),
      fun x => ((mapGet lib.checkout (req "patronId").asStr).getD []).any
        (fun b => x.eqStr b.isbn)] : List (Value → Bool)).all
        (fun pr => pr (req "isbn")) = false := by
    rw [← Bool.not_eq_true]
    intro hall
    have hsp : semPass req (retSemChecker lib req) := by
      intro e he
      simp only [retSemChecker, List.mem_cons, List.not_mem_nil, or_false] at he
      rcases he with he | he <;> subst he
      · exact hsem1 _ (List.mem_singleton_self _)
      · exact fun pr hpr => List.all_eq_true.1 hall pr hpr
    obtain ⟨_, hex, hh⟩ := retSem_facts hp hs hsp
    exact hbad ⟨hex, hh⟩
  have hv : validate req coTypeChecker (retSemChecker lib req) =
      some ⟨.BAD_REQ, "isbn"⟩ :=
    validate_badreq (coTypes_of_strings hp hs) hsem1 hfail
  unfold returnBook
  rw [hv]

/-! ### Characterization of `addBook` and `findBooks` -/

theorem withDefaultCopies_nCopies (req : Request) :
    withDefaultCopies req "nCopies" =
      (match req "nCopies" with | .undef => Value.num 1 | v => v) := by
  unfold withDefaultCopies
  cases h : req "nCopies" <;> simp [Value.isUndef, h]

theorem withDefaultCopies_other {req : Request} {k : String} (h : k ≠ "nCopies") :
    withDefaultCopies req k = req k := by
  unfold withDefaultCopies
  rw [if_neg]
  simp [h]

theorem intPos_of_preds {v : Value} (h1 : v.isIntegerNum = true) (h2 : v.isPos = true) :
    ∃ k : ℤ, v.asNum = (k : ℚ) ∧ 1 ≤ k := by
  cases v with
  | num q =>
    simp only [Value.isIntegerNum, beq_iff_eq] at h1
    simp only [Value.isPos, decide_eq_true_eq] at h2
    refine ⟨q.num, ?_, ?_⟩
    · exact ((Rat.den_eq_one_iff q).1 h1).symm
    · have hq : 0 < q.num := Rat.num_pos.2 h2
      omega
  | undef => simp [Value.isIntegerNum] at h1
  | str a => simp [Value.isIntegerNum] at h1
  | arr xs => simp [Value.isIntegerNum] at h1

theorem addBook_err_state {lib : LendingLibrary} {req : Request} {e : Err}
    (h : (addBook lib req).1 = .err e) : (addBook lib req).2 = lib := by
  unfold addBook at h ⊢
  cases hv : validate (withDefaultCopies req) addTypeChecker addSemChecker with
  | some e2 => rfl
  | none => rw [hv] at h; simp at h

theorem addBook_ok_elim {lib : LendingLibrary} {req : Request} {bk : XBook}
    (h : (addBook lib req).1 = .ok bk) :
    (addBook lib req).2 = { lib with books := lib.books ++ [bk] } ∧
      ∃ k : ℤ, bk.nCopies = (k : ℚ) ∧ 1 ≤ k := by
  unfold addBook at h ⊢
  cases hv : validate (withDefaultCopies req) addTypeChecker addSemChecker with
  | some e2 => rw [hv] at h; simp at h
  | none =>
    rw [hv] at h
    simp only at h
    obtain ⟨ht, hsem⟩ := validate_eq_none.1 hv
    have hn := hsem ("nCopies", [Value.isIntegerNum, Value.isPos])
      (by simp [addSemChecker])
    have h1 : Value.isIntegerNum (withDefaultCopies req "nCopies") = true :=
      hn Value.isIntegerNum (by simp)
    have h2 : Value.isPos (withDefaultCopies req "nCopies") = true :=
      hn Value.isPos (by simp)
    rw [withDefaultCopies_nCopies] at h1 h2
    obtain ⟨k, hk, hk1⟩ := intPos_of_preds h1 h2
    cases h
    exact ⟨rfl, k, hk, hk1⟩

theorem findBooks_state (lib : LendingLibrary) (req : Request) :
    (findBooks lib req).2 = lib := by
  unfold findBooks
  cases hv : validate req findTypeChecker findSemChecker with
  | some e => rfl
  | none => rfl

/-! ### The reachability invariant -/

theorem libInv_empty : LibInv emptyLibrary := by
  constructor
  · intro e he; cases he
  · intro e he; cases he
  · intro b hb; cases hb
  · intro s b h
    simp [LendingLibrary.getBook, emptyLibrary, List.find?] at h

theorem addBook_inv {lib : LendingLibrary} (inv : LibInv lib) (req : Request) :
    LibInv (addBook lib req).2 := by
  cases hr : (addBook lib req).1 with
  | err e => rw [addBook_err_state hr]; exact inv
  | ok bk =>
    obtain ⟨hstate, k, hk, hk1⟩ := addBook_ok_elim hr
    rw [hstate]
    constructor
    · exact inv.patronOnce
    · intro e he b hb
      obtain ⟨b2, hb2, hbi⟩ := inv.entryInCatalog e he b hb
      exact ⟨b2, List.mem_append_left _ hb2, hbi⟩
    · intro b hb
      rcases List.mem_append.1 hb with hmem | hmem
      · exact inv.copiesInt b hmem
      · simp only [List.mem_singleton] at hmem
        subst hmem
        exact ⟨k, hk, hk1⟩
    · intro s b hgb
      unfold LendingLibrary.getBook at hgb
      simp only at hgb
      rw [List.find?_append] at hgb
      show (entriesCount lib.checkout s : ℚ) ≤ b.nCopies
      cases hold : lib.books.find? (fun b => b.isbn == s) with
      | some b0 =>
        rw [hold] at hgb
        simp only [Option.or_some, Option.some.injEq] at hgb
        have hb0 : lib.getBook s = some b0 := hold
        have hsb := inv.stockBound s b0 hb0
        rw [hgb] at hsb
        exact hsb
      | none =>
        rw [hold] at hgb
        simp only [Option.none_or] at hgb
        have hnone : ∀ x ∈ lib.books, ¬(x.isbn == s) = true := List.find?_eq_none.1 hold
        cases hbs : bk.isbn == s with
        | true =>
          have hgb2 : b = bk := by
            rw [List.find?_cons] at hgb
            simp only [hbs, Option.some.injEq] at hgb
            exact hgb.symm
          subst hgb2
          have hzero : entriesCount lib.checkout s = 0 := by
            apply entriesCount_eq_zero
            intro e he b2 hb2
            obtain ⟨b3, hb3, hbi⟩ := inv.entryInCatalog e he b2 hb2
            intro hc
            exact hnone b3 hb3 (by simp [hbi, hc])
          rw [hzero, hk]
          have : (0 : ℤ) ≤ k := by omega
          exact_mod_cast this
        | false =>
          rw [List.find?_cons] at hgb
          simp only [hbs, List.find?_nil] at hgb
          cases hgb

theorem checkoutBook_inv {lib : LendingLibrary} (inv : LibInv lib) (req : Request) :
    LibInv (checkoutBook lib req).2 := by
  cases hr : (checkoutBook lib req).1 with
  | err e => rw [checkoutBook_err_state hr]; exact inv
  | ok u =>
    cases u
    obtain ⟨p, s, bk, hp, hpe, hs, hg, hst, hh, hstate⟩ := checkout_ok_elim hr
    rw [hstate]
    have hisbn : bk.isbn = s := getBook_isbn hg
    constructor
    · intro e he
      rcases checkoutInsert_elim e he with hmem | ⟨l, hl, hel⟩ | ⟨hnone, hel⟩
      · exact inv.patronOnce e hmem
      · subst hel
        have hl0 : (p, l) ∈ lib.checkout := mapGet_some_mem hl
        have hnd := inv.patronOnce (p, l) hl0
        simp only at hnd ⊢
        rw [List.map_append, List.nodup_append]
        refine ⟨hnd, by simp, ?_⟩
        intro a ha hb
        simp only [List.map_cons, List.map_nil, List.mem_singleton] at hb
        subst hb
        unfold patronHolds at hh
        rw [hl] at hh
        simp only [Option.getD_some, List.any_eq_false] at hh
        obtain ⟨y, hy, hyi⟩ := List.mem_map.1 ha
        exact (hh y hy) (by simp [hyi, hisbn])
      · subst hel
        simp
    · intro e he b hb
      rcases checkoutInsert_elim e he with hmem | ⟨l, hl, hel⟩ | ⟨hnone, hel⟩
      · exact inv.entryInCatalog e hmem b hb
      · subst hel
        simp only at hb
        rcases List.mem_append.1 hb with hbl | hbk
        · exact inv.entryInCatalog (p, l) (mapGet_some_mem hl) b hbl
        · simp only [List.mem_singleton] at hbk
          exact ⟨bk, getBook_mem hg, by rw [hbk]⟩
      · subst hel
        simp only [List.mem_singleton] at hb
        exact ⟨bk, getBook_mem hg, by rw [hb]⟩
    · exact inv.copiesInt
    · intro s2 b hgb
      have hgb2 : lib.getBook s2 = some b := hgb
      show (entriesCount (checkoutInsert p bk lib.checkout) s2 : ℚ) ≤ b.nCopies
      rw [entriesCount_checkoutInsert]
      cases hbs : bk.isbn == s2 with
      | false =>
        rw [if_neg (by simp [hbs])]
        simpa using inv.stockBound s2 b hgb2
      | true =>
        rw [if_pos (by simp [hbs])]
        have hs2 : s2 = s := by
          have : bk.isbn = s2 := by simpa using hbs
          rw [← this, hisbn]
        subst hs2
        have hbbk : b = bk := by
          rw [hg] at hgb2
          cases hgb2
          rfl
        subst hbbk
        have hcount := inStock_iff.1 hst
        rw [hisbn] at hcount
        have hEq : entriesCount lib.checkout s2 = patronsHolding lib.checkout s2 :=
          entriesCount_eq_patronsHolding inv.patronOnce
        obtain ⟨k, hk, hk1⟩ := inv.copiesInt b (getBook_mem hg)
        rw [hk] at hcount ⊢
        rw [hEq]
        exact succ_le_of_cast_lt hcount

theorem returnBook_inv {lib : LendingLibrary} (inv : LibInv lib) (req : Request) :
    LibInv (returnBook lib req).2 := by
  cases hr : (returnBook lib req).1 with
  | err e => rw [returnBook_err_state hr]; exact inv
  | ok u =>
    cases u
    obtain ⟨p, s, bk, hp, hpe, hs, hg, hh, hstate⟩ := return_ok_elim hr
    rw [hstate]
    constructor
    · intro e he
      rcases returnRemove_elim e he with hmem | ⟨l, hl, hel⟩
      · exact inv.patronOnce e hmem
      · subst hel
        have hnd := inv.patronOnce (p, l) (mapGet_some_mem hl)
        simp only at hnd ⊢
        exact List.Nodup.sublist ((removeFirst_sublist bk l).map XBook.isbn) hnd
    · intro e he b hb
      rcases returnRemove_elim e he with hmem | ⟨l, hl, hel⟩
      · exact inv.entryInCatalog e hmem b hb
      · subst hel
        simp only at hb
        exact inv.entryInCatalog (p, l) (mapGet_some_mem hl) b
          ((removeFirst_sublist bk l).subset hb)
    · exact inv.copiesInt
    · intro s2 b hgb
      have hgb2 : lib.getBook s2 = some b := hgb
      show (entriesCount (returnRemove p bk lib.checkout) s2 : ℚ) ≤ b.nCopies
      have h1 : entriesCount (returnRemove p bk lib.checkout) s2 ≤
          entriesCount lib.checkout s2 := entriesCount_returnRemove_le p bk _ s2
      have h2 := inv.stockBound s2 b hgb2
      calc ((entriesCount (returnRemove p bk lib.checkout) s2 : ℕ) : ℚ)
          ≤ ((entriesCount lib.checkout s2 : ℕ) : ℚ) := by exact_mod_cast h1
        _ ≤ b.nCopies := h2

theorem reachable_inv {lib : LendingLibrary} (h : Reachable lib) : LibInv lib := by
  induction h with
  | init => exact libInv_empty
  | add req _ ih => exact addBook_inv ih req
  | find req _ ih => rw [findBooks_state]; exact ih
  | co req _ ih => exact checkoutBook_inv ih req
  | ret req _ ih => exact returnBook_inv ih req

/-! ### Further helper lemmas for the claims -/

theorem checkoutInsert_of_not_has {p : String} {bk : XBook} {m : CheckoutMap}
    (h : mapGet m p = none) : checkoutInsert p bk m = m ++ [(p, [bk])] := by
  induction m with
  | nil => rfl
  | cons e0 rest ih =>
    rw [mapGet_cons] at h
    by_cases h0 : e0.1 == p
    · rw [if_pos h0] at h; cases h
    · rw [if_neg h0] at h
      have h0' : (e0.1 == p) = false := by simpa using h0
      simp only [checkoutInsert, h0', Bool.false_eq_true, if_false, List.cons_append]
      rw [ih h]

theorem mapGet_returnRemove_self (p : String) (bk : XBook) (m : CheckoutMap) :
    mapGet (returnRemove p bk m) p = (mapGet m p).map (removeFirst bk) := by
  induction m with
  | nil => rfl
  | cons e0 rest ih =>
    by_cases h0 : e0.1 == p
    · simp only [returnRemove, if_pos h0]
      rw [mapGet_cons, if_pos h0, mapGet_cons]
      simp only at h0 ⊢
      rw [if_pos h0]
      rfl
    · have h0' : (e0.1 == p) = false := by simpa using h0
      simp only [returnRemove, h0', Bool.false_eq_true, if_false]
      rw [mapGet_cons, if_neg (by simp [h0']), mapGet_cons, if_neg (by simp [h0'])]
      exact ih

theorem removeFirst_first_match {bk : XBook} {s : String} (hbk : bk.isbn = s) :
    ∀ (l1 : List XBook) (b2 : XBook) (l2 : List XBook), b2.isbn = s →
      (∀ y ∈ l1, y.isbn ≠ s) → removeFirst bk (l1 ++ b2 :: l2) = l1 ++ l2 := by
  intro l1
  induction l1 with
  | nil =>
    intro b2 l2 hb2 _
    simp only [List.nil_append]
    unfold removeFirst
    rw [if_pos (by simp [areEqual, hb2, hbk])]
  | cons y ys ih =>
    intro b2 l2 hb2 hl
    simp only [List.cons_append]
    unfold removeFirst
    rw [if_neg (by simp [areEqual, hbk, hl y (List.mem_cons_self _ _)])]
    rw [ih b2 l2 hb2 fun z hz => hl z (List.mem_cons_of_mem _ hz)]

theorem patronHolds_checkoutInsert_self {p s : String} {bk : XBook} (m : CheckoutMap)
    (hbk : bk.isbn = s) : patronHolds (checkoutInsert p bk m) p s = true := by
  unfold patronHolds
  rw [mapGet_checkoutInsert_self]
  simp [hbk]

theorem isPrefixB_iff {w t : List Char} : isPrefixB w t = true ↔ w <+: t := by
  induction w generalizing t with
  | nil => simp [isPrefixB]
  | cons a as ih =>
    cases t with
    | nil => simp [isPrefixB]
    | cons b bs =>
      unfold isPrefixB
      rw [Bool.and_eq_true, List.cons_prefix_cons, ih]
      simp [beq_iff_eq]

theorem isInfixB_iff {w t : List Char} : isInfixB w t = true ↔ w <:+: t := by
  induction t with
  | nil =>
    unfold isInfixB
    rw [isPrefixB_iff, List.prefix_nil, List.infix_nil]
  | cons c ts ih =>
    unfold isInfixB
    rw [Bool.or_eq_true, isPrefixB_iff, ih, List.infix_cons_iff]

/-! ### Concrete fixtures -/

/-- A well-formed `addBook` request (no `nCopies`, so one copy). -/
def bookReq1 : Request := fun k =>
  if k == "isbn" then .str "b1"
  else if k == "title" then .str "The Effective Engineer"
  else if k == "authors" then .arr [.str "Edmond Lau"]
  else if k == "pages" then .num 260
  else if k == "year" then .num 2015
  else if k == "publisher" then .str "EffPub"
  else (Value.undef)

/-- The record stored for `bookReq1`. -/
def bkEff : XBook :=
  ⟨"b1", "The Effective Engineer", ["Edmond Lau"], 260, 2015, "EffPub", 1⟩

/-- A checkout/return request. -/
def coReq (p i : String) : Request := fun k =>
  if k == "patronId" then .str p else if k == "isbn" then .str i else (Value.undef)

/-- A findBooks request. -/
def findReq (s : String) : Request := fun k =>
  if k == "search" then .str s else (Value.undef)

/-- Library with the single one-copy book `b1`. -/
def libOne : LendingLibrary := (addBook emptyLibrary bookReq1).2

/-- `libOne` after alice checked out `b1`. -/
def libHeld : LendingLibrary := (checkoutBook libOne (coReq "alice" "b1")).2

/-! ### The claims -/

/-- C1: in every library state reachable from a fresh `LendingLibrary` by any
sequence of `addBook`, `findBooks`, `checkoutBook` and `returnBook` calls, the
outstanding checkout entries for an isbn never exceed the `nCopies` of the
record the catalog resolves that isbn to, and each patron's checkout list
holds at most one entry per isbn; in particular with the one-copy book `b1`
held by alice, bob's `checkoutBook` fails with `BAD_REQ`, and succeeds after
alice returns it. -/
theorem stock_and_single_hold_invariant :
    (∀ lib, Reachable lib →
      (∀ s bk, lib.getBook s = some bk →
        (entriesCount lib.checkout s : ℚ) ≤ bk.nCopies) ∧
      ∀ e ∈ lib.checkout, (e.2.map XBook.isbn).Nodup) ∧
    (checkoutBook libHeld (coReq "bob" "b1")).1 = .err ⟨.BAD_REQ, "isbn"⟩ ∧
    (checkoutBook (returnBook libHeld (coReq "alice" "b1")).2
      (coReq "bob" "b1")).1 = .ok () := by
  refine ⟨fun lib h => ⟨(reachable_inv h).stockBound, (reachable_inv h).patronOnce⟩,
    ?_, ?_⟩
  · decide
  · decide

theorem stock_and_single_hold_invariant_witness :
    Reachable libHeld ∧ libHeld.getBook "b1" = some bkEff ∧
    (entriesCount libHeld.checkout "b1" : ℚ) ≤ bkEff.nCopies := by
  have hr : Reachable libHeld :=
    Reachable.co (coReq "alice" "b1") (Reachable.add bookReq1 Reachable.init)
  exact ⟨hr, by decide,
    (stock_and_single_hold_invariant.1 libHeld hr).1 "b1" bkEff (by decide)⟩

/-- C2: for a request with non-empty string `patronId` and string `isbn`,
`checkoutBook` applies its isbn predicates in order — existence, stock,
not-already-held — returning `BAD_REQ` on the first failure and leaving the
state unchanged; when all pass it appends the book reference to the patron's
checkout list, creating the list on the patron's first checkout, and returns
no value. -/
theorem checkoutBook_semantics (lib : LendingLibrary) (req : Request) (p s : String)
    (hp : req "patronId" = .str p) (hpe : p ≠ "") (hs : req "isbn" = .str s) :
    (lib.getBook s = none → checkoutBook lib req = (.err ⟨.BAD_REQ, "isbn"⟩, lib)) ∧
    (∀ bk, lib.getBook s = some bk → inStock lib bk = false →
      checkoutBook lib req = (.err ⟨.BAD_REQ, "isbn"⟩, lib)) ∧
    (∀ bk, lib.getBook s = some bk → inStock lib bk = true →
      patronHolds lib.checkout p s = true →
      checkoutBook lib req = (.err ⟨.BAD_REQ, "isbn"⟩, lib)) ∧
    (∀ bk, lib.getBook s = some bk → inStock lib bk = true →
      patronHolds lib.checkout p s = false →
      checkoutBook lib req =
        (.ok (), { lib with checkout := checkoutInsert p bk lib.checkout })) ∧
    (∀ (bk : XBook) (m : CheckoutMap), mapGet m p = none →
      checkoutInsert p bk m = m ++ [(p, [bk])]) ∧
    (∀ (bk : XBook) (m : CheckoutMap),
      mapGet (checkoutInsert p bk m) p = some ((mapGet m p).getD [] ++ [bk])) := by
  refine ⟨?_, ?_, ?_, ?_, ?_, ?_⟩
  · intro hnone
    apply checkout_fails hp hpe hs
    rintro ⟨bk, hbk, -⟩
    rw [hnone] at hbk
    cases hbk
  · intro bk hg hst
    apply checkout_fails hp hpe hs
    rintro ⟨bk2, hbk2, hst2, -⟩
    rw [hg] at hbk2
    cases hbk2
    rw [hst] at hst2
    cases hst2
  · intro bk hg hst hh
    apply checkout_fails hp hpe hs
    rintro ⟨bk2, hbk2, -, hh2⟩
    rw [hg] at hbk2
    cases hbk2
    rw [hh] at hh2
    cases hh2
  · intro bk hg hst hh
    exact checkout_succeeds hp hpe hs hg hst hh
  · intro bk m h
    exact checkoutInsert_of_not_has h
  · intro bk m
    exact mapGet_checkoutInsert_self p bk m

theorem checkoutBook_semantics_witness :
    checkoutBook libHeld (coReq "bob" "b1") = (.err ⟨.BAD_REQ, "isbn"⟩, libHeld) :=
  ((checkoutBook_semantics libHeld (coReq "bob" "b1") "bob" "b1" rfl (by decide)
    rfl).2.1) bkEff (by decide) (by decide)

/-- C3: `returnBook` succeeds exactly when the book exists and the patron
holds it (otherwise `BAD_REQ` with the state unchanged, and with
MISSING/BAD_TYPE taking precedence for absent or non-string fields); on
success it removes exactly the first entry whose isbn matches — later
matching entries survive — and returns no value. -/
theorem returnBook_semantics (lib : LendingLibrary) (req : Request) (p s : String)
    (hp : req "patronId" = .str p) (hpe : p ≠ "") (hs : req "isbn" = .str s) :
    ((returnBook lib req).1 = .ok () ↔
      (∃ bk, lib.getBook s = some bk) ∧ patronHolds lib.checkout p s = true) ∧
    (¬((∃ bk, lib.getBook s = some bk) ∧ patronHolds lib.checkout p s = true) →
      returnBook lib req = (.err ⟨.BAD_REQ, "isbn"⟩, lib)) ∧
    (∀ bk, lib.getBook s = some bk → patronHolds lib.checkout p s = true →
      returnBook lib req =
        (.ok (), { lib with checkout := returnRemove p bk lib.checkout })) ∧
    (∀ (bk : XBook) (l1 l2 : List XBook) (b2 : XBook), bk.isbn = s → b2.isbn = s →
      (∀ y ∈ l1, y.isbn ≠ s) → removeFirst bk (l1 ++ b2 :: l2) = l1 ++ l2) ∧
    (∀ req2 : Request, req2 "patronId" = .undef →
      returnBook lib req2 = (.err ⟨.MISSING, "patronId"⟩, lib)) ∧
    (∀ req2 : Request, (req2 "patronId").isUndef = false →
      (req2 "patronId").isStr = false →
      returnBook lib req2 = (.err ⟨.BAD_TYPE, "patronId"⟩, lib)) ∧
    (∀ (req2 : Request) (p2 : String), req2 "patronId" = .str p2 →
      req2 "isbn" = .undef →
      returnBook lib req2 = (.err ⟨.MISSING, "isbn"⟩, lib)) ∧
    (∀ (req2 : Request) (p2 : String), req2 "patronId" = .str p2 →
      (req2 "isbn").isUndef = false → (req2 "isbn").isStr = false →
      returnBook lib req2 = (.err ⟨.BAD_TYPE, "isbn"⟩, lib)) := by
  have hemptyTP : typesPass (fun _ => Value.undef) ([] : List (String × (Value → Bool))) :=
    fun e he => absurd he (List.not_mem_nil e)
  refine ⟨⟨?_, ?_⟩, ?_, ?_, ?_, ?_, ?_, ?_, ?_⟩
  · intro hok
    obtain ⟨p2, s2, bk, hp2, hpe2, hs2, hg, hh, -⟩ := return_ok_elim hok
    have hpp : p2 = p := by rw [hp] at hp2; cases hp2; rfl
    have hss : s2 = s := by rw [hs] at hs2; cases hs2; rfl
    subst hpp
    subst hss
    exact ⟨⟨bk, hg⟩, hh⟩
  · rintro ⟨⟨bk, hg⟩, hh⟩
    rw [return_succeeds hp hpe hs hg hh]
  · intro hbad
    exact return_fails hp hpe hs hbad
  · intro bk hg hh
    exact return_succeeds hp hpe hs hg hh
  · intro bk l1 l2 b2 hbk hb2 hl
    exact removeFirst_first_match hbk l1 b2 l2 hb2 hl
  · intro req2 h2
    unfold returnBook
    rw [show validate req2 coTypeChecker (retSemChecker lib req2) =
        some ⟨.MISSING, "patronId"⟩ from
      validate_missing (fun e he => absurd he (List.not_mem_nil e)) (by rw [h2]; rfl)]
  · intro req2 h2 h3
    unfold returnBook
    rw [show validate req2 coTypeChecker (retSemChecker lib req2) =
        some ⟨.BAD_TYPE, "patronId"⟩ from
      validate_badtype (fun e he => absurd he (List.not_mem_nil e)) h2 h3]
  · intro req2 p2 hp2 h2
    unfold returnBook
    have htp1 : typesPass req2 [("patronId", Value.isStr)] := by
      intro e he
      simp only [List.mem_singleton] at he
      subst he
      simp [hp2, Value.isUndef, Value.isStr]
    have hv : validate req2
        ([("patronId", Value.isStr)] ++ ("isbn", Value.isStr) :: [])
        (retSemChecker lib req2) = some ⟨.MISSING, "isbn"⟩ :=
      validate_missing htp1 (by rw [h2]; rfl)
    rw [show validate req2 coTypeChecker (retSemChecker lib req2) =
        some ⟨.MISSING, "isbn"⟩ from hv]
  · intro req2 p2 hp2 h2 h3
    unfold returnBook
    have htp1 : typesPass req2 [("patronId", Value.isStr)] := by
      intro e he
      simp only [List.mem_singleton] at he
      subst he
      simp [hp2, Value.isUndef, Value.isStr]
    have hv : validate req2
        ([("patronId", Value.isStr)] ++ ("isbn", Value.isStr) :: [])
        (retSemChecker lib req2) = some ⟨.BAD_TYPE, "isbn"⟩ :=
      validate_badtype htp1 h2 h3
    rw [show validate req2 coTypeChecker (retSemChecker lib req2) =
        some ⟨.BAD_TYPE, "isbn"⟩ from hv]

theorem returnBook_semantics_witness :
    returnBook libHeld (coReq "alice" "b1") =
      (.ok (), { libHeld with
        checkout := returnRemove "alice" bkEff libHeld.checkout }) :=
  (returnBook_semantics libHeld (coReq "alice" "b1") "alice" "b1" rfl (by decide)
    rfl).2.2.1 bkEff (by decide) (by decide)

theorem patronHolds_after_return {p s : String} {bk : XBook} {m : CheckoutMap}
    (hisbn : bk.isbn = s) (hh : patronHolds m p s = false) :
    patronHolds (returnRemove p bk (checkoutInsert p bk m)) p s = false := by
  unfold patronHolds at hh ⊢
  rw [mapGet_returnRemove_self, mapGet_checkoutInsert_self]
  cases hm : mapGet m p with
  | none =>
    simp only [hm, Option.getD_none, List.nil_append, Option.map_some]
    simp [removeFirst, areEqual]
  | some l0 =>
    rw [hm] at hh
    have hl0 : ∀ y ∈ l0, y.isbn ≠ s := by simpa using hh
    show (removeFirst bk (l0 ++ [bk])).any (fun b => b.isbn == s) = false
    rw [removeFirst_first_match hisbn l0 bk [] hisbn hl0]
    simpa [List.append_nil] using hh

/-- C4: after a successful `checkoutBook(p, i)`, `returnBook(p, i)` succeeds;
a second `returnBook(p, i)` with no intervening checkout fails `BAD_REQ`; and
a second `checkoutBook(p, i)` while the patron still holds the book fails
`BAD_REQ`. -/
theorem roundtrip_semantics (lib : LendingLibrary) (req : Request) (p s : String)
    (hp : req "patronId" = .str p) (hpe : p ≠ "") (hs : req "isbn" = .str s)
    (hco : (checkoutBook lib req).1 = .ok ()) :
    (returnBook (checkoutBook lib req).2 req).1 = .ok () ∧
    (returnBook (returnBook (checkoutBook lib req).2 req).2 req).1 =
      .err ⟨.BAD_REQ, "isbn"⟩ ∧
    (checkoutBook (checkoutBook lib req).2 req).1 = .err ⟨.BAD_REQ, "isbn"⟩ := by
  obtain ⟨p2, s2, bk, hp2, hpe2, hs2, hg, hst, hh, hstate⟩ := checkout_ok_elim hco
  have hpp : p = p2 := by rw [hp] at hp2; cases hp2; rfl
  have hss : s = s2 := by rw [hs] at hs2; cases hs2; rfl
  subst hpp
  subst hss
  have hisbn : bk.isbn = s := getBook_isbn hg
  rw [hstate]
  have hg1 : LendingLibrary.getBook
      { lib with checkout := checkoutInsert p bk lib.checkout } s = some bk := hg
  have hh1 : patronHolds (checkoutInsert p bk lib.checkout) p s = true :=
    patronHolds_checkoutInsert_self _ hisbn
  have hret := return_succeeds hp hpe hs hg1 hh1
  refine ⟨?_, ?_, ?_⟩
  · rw [hret]
  · rw [hret]
    show (returnBook
      { lib with checkout := returnRemove p bk (checkoutInsert p bk lib.checkout) }
      req).1 = .err ⟨.BAD_REQ, "isbn"⟩
    have hbad : ¬((∃ bk2, LendingLibrary.getBook
        { lib with checkout := returnRemove p bk (checkoutInsert p bk lib.checkout) }
          s = some bk2) ∧
        patronHolds (returnRemove p bk (checkoutInsert p bk lib.checkout)) p s =
          true) := by
      rintro ⟨-, hh2⟩
      rw [patronHolds_after_return hisbn hh] at hh2
      cases hh2
    rw [return_fails hp hpe hs hbad]
  · have hbad : ¬(∃ bk2, LendingLibrary.getBook
        { lib with checkout := checkoutInsert p bk lib.checkout } s = some bk2 ∧
        inStock { lib with checkout := checkoutInsert p bk lib.checkout } bk2 = true ∧
        patronHolds (checkoutInsert p bk lib.checkout) p s = false) := by
      rintro ⟨bk2, hg2, -, hh2⟩
      rw [hh1] at hh2
      cases hh2
    rw [checkout_fails hp hpe hs hbad]

theorem roundtrip_semantics_witness :
    (returnBook (checkoutBook libOne (coReq "alice" "b1")).2
      (coReq "alice" "b1")).1 = .ok () ∧
    (returnBook (returnBook (checkoutBook libOne (coReq "alice" "b1")).2
      (coReq "alice" "b1")).2 (coReq "alice" "b1")).1 = .err ⟨.BAD_REQ, "isbn"⟩ ∧
    (checkoutBook (checkoutBook libOne (coReq "alice" "b1")).2
      (coReq "alice" "b1")).1 = .err ⟨.BAD_REQ, "isbn"⟩ :=
  roundtrip_semantics libOne (coReq "alice" "b1") "alice" "b1" rfl (by decide) rfl
    (by decide)

/-- C5: the validator checks presence then type per field in declared order,
yielding `MISSING` for an absent field and `BAD_TYPE` for an ill-typed one;
semantic predicates run only when every field passed type checking, in order,
yielding `BAD_REQ` on the first failure; a fully passing request yields the
success marker, exactly one error is ever produced, each error carries the
offending field as its widget, and a request missing two fields reports the
field declared first. -/
theorem validate_order_spec :
    (∀ (req : Request) (tc1 tc2 : List (String × (Value → Bool))) (key : String)
        (tp : Value → Bool) (sem : List (String × List (Value → Bool))),
      typesPass req tc1 → (req key).isUndef = true →
      validate req (tc1 ++ (key, tp) :: tc2) sem = some ⟨.MISSING, key⟩) ∧
    (∀ (req : Request) (tc1 tc2 : List (String × (Value → Bool))) (key : String)
        (tp : Value → Bool) (sem : List (String × List (Value → Bool))),
      typesPass req tc1 → (req key).isUndef = false → tp (req key) = false →
      validate req (tc1 ++ (key, tp) :: tc2) sem = some ⟨.BAD_TYPE, key⟩) ∧
    (∀ (req : Request) (tc : List (String × (Value → Bool)))
        (sem1 sem2 : List (String × List (Value → Bool))) (key : String)
        (preds : List (Value → Bool)),
      typesPass req tc → semPass req sem1 →
      preds.all (fun pr => pr (req key)) = false →
      validate req tc (sem1 ++ (key, preds) :: sem2) = some ⟨.BAD_REQ, key⟩) ∧
    (∀ (req : Request) (tc : List (String × (Value → Bool)))
        (sem : List (String × List (Value → Bool))),
      typesPass req tc → semPass req sem → validate req tc sem = none) ∧
    (∀ (req : Request) (tc1 mid tc2 : List (String × (Value → Bool)))
        (k1 k2 : String) (tp1 tp2 : Value → Bool)
        (sem : List (String × List (Value → Bool))),
      typesPass req tc1 → (req k1).isUndef = true → (req k2).isUndef = true →
      validate req (tc1 ++ (k1, tp1) :: (mid ++ (k2, tp2) :: tc2)) sem =
        some ⟨.MISSING, k1⟩) := by
  refine ⟨?_, ?_, ?_, ?_, ?_⟩
  · intro req tc1 tc2 key tp sem h1 h2
    exact validate_missing h1 h2
  · intro req tc1 tc2 key tp sem h1 h2 h3
    exact validate_badtype h1 h2 h3
  · intro req tc sem1 sem2 key preds ht h1 h2
    exact validate_badreq ht h1 h2
  · intro req tc sem ht hsem
    exact validate_eq_none.2 ⟨ht, hsem⟩
  · intro req tc1 mid tc2 k1 k2 tp1 tp2 sem h1 h2 _
    exact @validate_missing req tc1 (mid ++ (k2, tp2) :: tc2) k1 tp1 sem h1 h2

theorem validate_order_spec_witness :
    validate (fun _ => Value.undef) coTypeChecker [] =
      some ⟨.MISSING, "patronId"⟩ :=
  validate_order_spec.2.2.2.2 (fun _ => Value.undef) [] [] [] "patronId" "isbn"
    Value.isStr Value.isStr [] (fun e he => absurd he (List.not_mem_nil e)) rfl rfl

/-- C9: every operation is atomic on error — whenever `addBook`,
`checkoutBook`, `returnBook` or `findBooks` returns an error, the book
collection and checkout map are exactly as before the call; `findBooks`
leaves them unchanged even on success. -/
theorem ops_atomic_on_error :
    (∀ (lib : LendingLibrary) (req : Request) (e : Err),
      (addBook lib req).1 = .err e → (addBook lib req).2 = lib) ∧
    (∀ (lib : LendingLibrary) (req : Request) (e : Err),
      (checkoutBook lib req).1 = .err e → (checkoutBook lib req).2 = lib) ∧
    (∀ (lib : LendingLibrary) (req : Request) (e : Err),
      (returnBook lib req).1 = .err e → (returnBook lib req).2 = lib) ∧
    (∀ (lib : LendingLibrary) (req : Request) (e : Err),
      (findBooks lib req).1 = .err e → (findBooks lib req).2 = lib) ∧
    (∀ (lib : LendingLibrary) (req : Request), (findBooks lib req).2 = lib) :=
  ⟨fun _ _ _ h => addBook_err_state h,
   fun _ _ _ h => checkoutBook_err_state h,
   fun _ _ _ h => returnBook_err_state h,
   fun lib req _ _ => findBooks_state lib req,
   fun lib req => findBooks_state lib req⟩

theorem ops_atomic_on_error_witness :
    (addBook emptyLibrary (fun _ => Value.undef)).1 =
      .err ⟨.MISSING, "isbn"⟩ ∧
    (addBook emptyLibrary (fun _ => Value.undef)).2 = emptyLibrary :=
  ⟨by decide, ops_atomic_on_error.1 emptyLibrary (fun _ => Value.undef)
    ⟨.MISSING, "isbn"⟩ (by decide)⟩

theorem asStrList_map_str (l : List String) :
    (Value.arr (l.map Value.str)).asStrList = l := by
  simp only [Value.asStrList, List.map_map]
  exact List.map_congr_left (fun a _ => rfl) |>.trans (List.map_id l)

/-- C6: for every well-formed `addBook` request, exactly one normalized
record is appended to the collection and returned; its `nCopies` is the
request's when provided and 1 otherwise, and its other fields equal the
request's fields. -/
theorem addBook_wellformed (lib : LendingLibrary) (req : Request)
    (i t pub : String) (auth : List String) (pg yr : ℚ)
    (hi : req "isbn" = .str i) (ht : req "title" = .str t)
    (ha : req "authors" = .arr (auth.map Value.str)) (hane : auth ≠ [])
    (hpg : req "pages" = .num pg) (hpgi : pg.den = 1) (hpgp : 0 < pg)
    (hyr : req "year" = .num yr) (hyri : yr.den = 1) (hyrp : 0 < yr)
    (hpub : req "publisher" = .str pub)
    (hnc : req "nCopies" = .undef ∨
      ∃ c : ℚ, req "nCopies" = .num c ∧ c.den = 1 ∧ 0 < c) :
    ∃ bk, addBook lib req = (.ok bk, { lib with books := lib.books ++ [bk] }) ∧
      bk.isbn = i ∧ bk.title = t ∧ bk.authors = auth ∧ bk.pages = pg ∧
      bk.year = yr ∧ bk.publisher = pub ∧
      (req "nCopies" = .undef → bk.nCopies = 1) ∧
      (∀ c : ℚ, req "nCopies" = .num c → bk.nCopies = c) := by
  have e1 : withDefaultCopies req "isbn" = req "isbn" :=
    withDefaultCopies_other (by decide)
  have e2 : withDefaultCopies req "title" = req "title" :=
    withDefaultCopies_other (by decide)
  have e3 : withDefaultCopies req "authors" = req "authors" :=
    withDefaultCopies_other (by decide)
  have e4 : withDefaultCopies req "pages" = req "pages" :=
    withDefaultCopies_other (by decide)
  have e5 : withDefaultCopies req "year" = req "year" :=
    withDefaultCopies_other (by decide)
  have e6 : withDefaultCopies req "publisher" = req "publisher" :=
    withDefaultCopies_other (by decide)
  have hncv : (withDefaultCopies req "nCopies" = Value.num 1 ∧
        req "nCopies" = .undef) ∨
      ∃ c : ℚ, withDefaultCopies req "nCopies" = .num c ∧ req "nCopies" = .num c ∧
        c.den = 1 ∧ 0 < c := by
    rcases hnc with h | ⟨c, hc, hcd, hcp⟩
    · left
      rw [withDefaultCopies_nCopies, h]
      exact ⟨rfl, rfl⟩
    · right
      exact ⟨c, by rw [withDefaultCopies_nCopies, hc], hc, hcd, hcp⟩
  have htp : typesPass (withDefaultCopies req) addTypeChecker := by
    intro e he
    simp only [addTypeChecker, List.mem_cons, List.not_mem_nil, or_false] at he
    rcases he with he | he | he | he | he | he | he <;> subst he
    · simp [e1, hi, Value.isUndef, Value.isStr]
    · simp [e2, ht, Value.isUndef, Value.isStr]
    · refine ⟨by simp [e3, ha, Value.isUndef], ?_⟩
      simp only [e3, ha]
      show ((auth.map Value.str).all Value.isStr &&
        decide ((auth.map Value.str).length > 0)) = true
      rw [Bool.and_eq_true]
      constructor
      · rw [List.all_eq_true]
        intro x hx
        obtain ⟨a, -, hax⟩ := List.mem_map.1 hx
        rw [← hax]
        rfl
      · simp [List.length_pos, hane]
    · simp [e4, hpg, Value.isUndef, Value.isNum]
    · simp [e5, hyr, Value.isUndef, Value.isNum]
    · simp [e6, hpub, Value.isUndef, Value.isStr]
    · rcases hncv with ⟨hv, -⟩ | ⟨c, hv, -, -, -⟩ <;>
        simp [hv, Value.isUndef, Value.isNum]
  have hsp : semPass (withDefaultCopies req) addSemChecker := by
    intro e he
    simp only [addSemChecker, List.mem_cons, List.not_mem_nil, or_false] at he
    rcases he with he | he | he <;> subst he <;> intro pr hpr <;>
      simp only [List.mem_cons, List.not_mem_nil, or_false] at hpr
    · rcases hpr with hpr | hpr <;> subst hpr
      · simp [e4, hpg, Value.isIntegerNum, hpgi]
      · simp [e4, hpg, Value.isPos, hpgp]
    · rcases hpr with hpr | hpr <;> subst hpr
      · simp [e5, hyr, Value.isIntegerNum, hyri]
      · simp [e5, hyr, Value.isPos, hyrp]
    · rcases hpr with hpr | hpr <;> subst hpr
      · rcases hncv with ⟨hv, -⟩ | ⟨c, hv, -, hcd, -⟩
        · rw [hv]; decide
        · simp [hv, Value.isIntegerNum, hcd]
      · rcases hncv with ⟨hv, -⟩ | ⟨c, hv, -, -, hcp⟩
        · rw [hv]; decide
        · simp [hv, Value.isPos, hcp]
  unfold addBook
  rw [validate_eq_none.2 ⟨htp, hsp⟩]
  refine ⟨_, rfl, ?_, ?_, ?_, ?_, ?_, ?_, ?_, ?_⟩
  · simp [hi, Value.asStr]
  · simp [ht, Value.asStr]
  · simp only [ha]
    exact asStrList_map_str auth
  · simp [hpg, Value.asNum]
  · simp [hyr, Value.asNum]
  · simp [hpub, Value.asStr]
  · intro h
    simp [h, Value.asNum]
  · intro c hc
    simp [hc, Value.asNum]

theorem addBook_wellformed_witness :
    ∃ bk, addBook emptyLibrary bookReq1 =
        (.ok bk, { emptyLibrary with books := emptyLibrary.books ++ [bk] }) ∧
      bk.isbn = "b1" ∧ bk.title = "The Effective Engineer" ∧
      bk.authors = ["Edmond Lau"] ∧ bk.pages = 260 ∧ bk.year = 2015 ∧
      bk.publisher = "EffPub" ∧
      (bookReq1 "nCopies" = .undef → bk.nCopies = 1) ∧
      (∀ c : ℚ, bookReq1 "nCopies" = .num c → bk.nCopies = c) :=
  addBook_wellformed emptyLibrary bookReq1 "b1" "The Effective Engineer" "EffPub"
    ["Edmond Lau"] 260 2015 rfl rfl rfl (by decide) rfl (by decide) (by decide)
    rfl (by decide) (by decide) rfl (Or.inl rfl)

/-- Field shape of a type-correct `addBook` request. -/
def addFieldsTyped (req : Request) (i t : String) (auth : List String)
    (pg yr : ℚ) (pub : String) : Prop :=
  req "isbn" = .str i ∧ req "title" = .str t ∧
  req "authors" = .arr (auth.map Value.str) ∧ auth ≠ [] ∧
  req "pages" = .num pg ∧ req "year" = .num yr ∧ req "publisher" = .str pub ∧
  (req "nCopies" = .undef ∨ ∃ c : ℚ, req "nCopies" = .num c)

theorem addTypesPass {req : Request} {i t : String} {auth : List String}
    {pg yr : ℚ} {pub : String} (h : addFieldsTyped req i t auth pg yr pub) :
    typesPass (withDefaultCopies req) addTypeChecker := by
  obtain ⟨hi, ht, ha, hane, hpg, hyr, hpub, hnc⟩ := h
  have e1 : withDefaultCopies req "isbn" = req "isbn" :=
    withDefaultCopies_other (by decide)
  have e2 : withDefaultCopies req "title" = req "title" :=
    withDefaultCopies_other (by decide)
  have e3 : withDefaultCopies req "authors" = req "authors" :=
    withDefaultCopies_other (by decide)
  have e4 : withDefaultCopies req "pages" = req "pages" :=
    withDefaultCopies_other (by decide)
  have e5 : withDefaultCopies req "year" = req "year" :=
    withDefaultCopies_other (by decide)
  have e6 : withDefaultCopies req "publisher" = req "publisher" :=
    withDefaultCopies_other (by decide)
  intro e he
  simp only [addTypeChecker, List.mem_cons, List.not_mem_nil, or_false] at he
  rcases he with he | he | he | he | he | he | he <;> subst he
  · simp [e1, hi, Value.isUndef, Value.isStr]
  · simp [e2, ht, Value.isUndef, Value.isStr]
  · refine ⟨by simp [e3, ha, Value.isUndef], ?_⟩
    simp only [e3, ha]
    show ((auth.map Value.str).all Value.isStr &&
      decide ((auth.map Value.str).length > 0)) = true
    rw [Bool.and_eq_true]
    constructor
    · rw [List.all_eq_true]
      intro x hx
      obtain ⟨a, -, hax⟩ := List.mem_map.1 hx
      rw [← hax]
      rfl
    · simp [List.length_pos, hane]
  · simp [e4, hpg, Value.isUndef, Value.isNum]
  · simp [e5, hyr, Value.isUndef, Value.isNum]
  · simp [e6, hpub, Value.isUndef, Value.isStr]
  · rcases hnc with h | ⟨c, hc⟩
    · rw [withDefaultCopies_nCopies, h]
      exact ⟨rfl, rfl⟩
    · rw [withDefaultCopies_nCopies, hc]
      exact ⟨rfl, rfl⟩

/-- C7: `addBook` fails `MISSING` when a required field is absent,
`BAD_TYPE` when `authors` is empty or contains a non-string or a string
field (`isbn`, `title`, `publisher`) is not a string, and `BAD_REQ` when
`pages`, `year` or a provided `nCopies` is not a positive integer. -/
theorem addBook_error_taxonomy :
    (∀ (lib : LendingLibrary) (req : Request), req "isbn" = .undef →
      addBook lib req = (.err ⟨.MISSING, "isbn"⟩, lib)) ∧
    (∀ (lib : LendingLibrary) (req : Request), (req "isbn").isUndef = false →
      (req "isbn").isStr = false →
      addBook lib req = (.err ⟨.BAD_TYPE, "isbn"⟩, lib)) ∧
    (∀ (lib : LendingLibrary) (req : Request) (i : String),
      req "isbn" = .str i → req "title" = .undef →
      addBook lib req = (.err ⟨.MISSING, "title"⟩, lib)) ∧
    (∀ (lib : LendingLibrary) (req : Request) (i t : String),
      req "isbn" = .str i → req "title" = .str t → req "authors" = .undef →
      addBook lib req = (.err ⟨.MISSING, "authors"⟩, lib)) ∧
    (∀ (lib : LendingLibrary) (req : Request) (i t : String),
      req "isbn" = .str i → req "title" = .str t → req "authors" = .arr [] →
      addBook lib req = (.err ⟨.BAD_TYPE, "authors"⟩, lib)) ∧
    (∀ (lib : LendingLibrary) (req : Request) (i t : String) (xs : List Value)
        (x : Value), req "isbn" = .str i → req "title" = .str t →
      req "authors" = .arr xs → x ∈ xs → x.isStr = false →
      addBook lib req = (.err ⟨.BAD_TYPE, "authors"⟩, lib)) ∧
    (∀ (lib : LendingLibrary) (req : Request) (i t : String) (auth : List String),
      req "isbn" = .str i → req "title" = .str t →
      req "authors" = .arr (auth.map Value.str) → auth ≠ [] →
      req "pages" = .undef →
      addBook lib req = (.err ⟨.MISSING, "pages"⟩, lib)) ∧
    (∀ (lib : LendingLibrary) (req : Request) (i t : String) (auth : List String)
        (pg : ℚ), req "isbn" = .str i → req "title" = .str t →
      req "authors" = .arr (auth.map Value.str) → auth ≠ [] →
      req "pages" = .num pg → req "year" = .undef →
      addBook lib req = (.err ⟨.MISSING, "year"⟩, lib)) ∧
    (∀ (lib : LendingLibrary) (req : Request) (i t : String) (auth : List String)
        (pg yr : ℚ), req "isbn" = .str i → req "title" = .str t →
      req "authors" = .arr (auth.map Value.str) → auth ≠ [] →
      req "pages" = .num pg → req "year" = .num yr → req "publisher" = .undef →
      addBook lib req = (.err ⟨.MISSING, "publisher"⟩, lib)) ∧
    (∀ (lib : LendingLibrary) (req : Request) (i t pub : String)
        (auth : List String) (pg yr : ℚ),
      addFieldsTyped req i t auth pg yr pub → (pg.den ≠ 1 ∨ pg ≤ 0) →
      addBook lib req = (.err ⟨.BAD_REQ, "pages"⟩, lib)) ∧
    (∀ (lib : LendingLibrary) (req : Request) (i t pub : String)
        (auth : List String) (pg yr : ℚ),
      addFieldsTyped req i t auth pg yr pub → pg.den = 1 → 0 < pg →
      (yr.den ≠ 1 ∨ yr ≤ 0) →
      addBook lib req = (.err ⟨.BAD_REQ, "year"⟩, lib)) ∧
    (∀ (lib : LendingLibrary) (req : Request) (i t pub : String)
        (auth : List String) (pg yr c : ℚ),
      addFieldsTyped req i t auth pg yr pub → pg.den = 1 → 0 < pg →
      yr.den = 1 → 0 < yr → req "nCopies" = .num c → (c.den ≠ 1 ∨ c ≤ 0) →
      addBook lib req = (.err ⟨.BAD_REQ, "nCopies"⟩, lib)) ∧
    (∀ (lib : LendingLibrary) (req : Request) (i : String),
      req "isbn" = .str i → (req "title").isUndef = false →
      (req "title").isStr = false →
      addBook lib req = (.err ⟨.BAD_TYPE, "title"⟩, lib)) ∧
    (∀ (lib : LendingLibrary) (req : Request) (i t : String) (auth : List String)
        (pg yr : ℚ), req "isbn" = .str i → req "title" = .str t →
      req "authors" = .arr (auth.map Value.str) → auth ≠ [] →
      req "pages" = .num pg → req "year" = .num yr →
      (req "publisher").isUndef = false → (req "publisher").isStr = false →
      addBook lib req = (.err ⟨.BAD_TYPE, "publisher"⟩, lib)) := by
  have emh : ∀ (req : Request), typesPass (withDefaultCopies req)
      ([] : List (String × (Value → Bool))) :=
    fun _ e he => absurd he (List.not_mem_nil e)
  refine ⟨?_, ?_, ?_, ?_, ?_, ?_, ?_, ?_, ?_, ?_, ?_, ?_, ?_, ?_⟩
  all_goals intro lib req
  · intro h
    unfold addBook
    rw [show validate (withDefaultCopies req) addTypeChecker addSemChecker =
        some ⟨.MISSING, "isbn"⟩ from validate_missing (emh req)
      (by rw [withDefaultCopies_other (by decide), h]; rfl)]
  · intro h1 h2
    unfold addBook
    rw [show validate (withDefaultCopies req) addTypeChecker addSemChecker =
        some ⟨.BAD_TYPE, "isbn"⟩ from validate_badtype (emh req)
      (by rw [withDefaultCopies_other (by decide)]; exact h1)
      (by rw [withDefaultCopies_other (by decide)]; exact h2)]
  · intro i hi h
    unfold addBook
    have htp1 : typesPass (withDefaultCopies req) [("isbn", Value.isStr)] := by
      intro e he
      simp only [List.mem_singleton] at he
      subst he
      simp [withDefaultCopies_other (show "isbn" ≠ "nCopies" by decide), hi,
        Value.isUndef, Value.isStr]
    have hv : validate (withDefaultCopies req)
        ([("isbn", Value.isStr)] ++ ("title", Value.isStr) ::
          [("authors", fun x => match x with
            | .arr xs => xs.all Value.isStr && decide (xs.length > 0)
            | _ => false),
           ("pages", Value.isNum), ("year", Value.isNum),
           ("publisher", Value.isStr), ("nCopies", Value.isNum)])
        addSemChecker = some ⟨.MISSING, "title"⟩ :=
      validate_missing htp1
        (by rw [withDefaultCopies_other (by decide), h]; rfl)
    rw [show validate (withDefaultCopies req) addTypeChecker addSemChecker =
        some ⟨.MISSING, "title"⟩ from hv]
  · intro i t hi ht h
    unfold addBook
    have htp1 : typesPass (withDefaultCopies req)
        [("isbn", Value.isStr), ("title", Value.isStr)] := by
      intro e he
      simp only [List.mem_cons, List.not_mem_nil, or_false] at he
      rcases he with he | he <;> subst he
      · simp [withDefaultCopies_other (show "isbn" ≠ "nCopies" by decide), hi,
          Value.isUndef, Value.isStr]
      · simp [withDefaultCopies_other (show "title" ≠ "nCopies" by decide), ht,
          Value.isUndef, Value.isStr]
    have hv : validate (withDefaultCopies req)
        ([("isbn", Value.isStr), ("title", Value.isStr)] ++
          ("authors", isStringArr) ::
          [("pages", Value.isNum), ("year", Value.isNum),
           ("publisher", Value.isStr), ("nCopies", Value.isNum)])
        addSemChecker = some ⟨.MISSING, "authors"⟩ :=
      validate_missing htp1
        (by rw [withDefaultCopies_other (by decide), h]; rfl)
    rw [show validate (withDefaultCopies req) addTypeChecker addSemChecker =
        some ⟨.MISSING, "authors"⟩ from hv]
  · intro i t hi ht h
    unfold addBook
    have htp1 : typesPass (withDefaultCopies req)
        [("isbn", Value.isStr), ("title", Value.isStr)] := by
      intro e he
      simp only [List.mem_cons, List.not_mem_nil, or_false] at he
      rcases he with he | he <;> subst he
      · simp [withDefaultCopies_other (show "isbn" ≠ "nCopies" by decide), hi,
          Value.isUndef, Value.isStr]
      · simp [withDefaultCopies_other (show "title" ≠ "nCopies" by decide), ht,
          Value.isUndef, Value.isStr]
    have hv : validate (withDefaultCopies req)
        ([("isbn", Value.isStr), ("title", Value.isStr)] ++
          ("authors", isStringArr) ::
          [("pages", Value.isNum), ("year", Value.isNum),
           ("publisher", Value.isStr), ("nCopies", Value.isNum)])
        addSemChecker = some ⟨.BAD_TYPE, "authors"⟩ :=
      validate_badtype htp1
        (by rw [withDefaultCopies_other (by decide), h]; rfl)
        (by rw [withDefaultCopies_other (by decide), h]; rfl)
    rw [show validate (withDefaultCopies req) addTypeChecker addSemChecker =
        some ⟨.BAD_TYPE, "authors"⟩ from hv]
  · intro i t xs x hi ht h hx hxs
    unfold addBook
    have htp1 : typesPass (withDefaultCopies req)
        [("isbn", Value.isStr), ("title", Value.isStr)] := by
      intro e he
      simp only [List.mem_cons, List.not_mem_nil, or_false] at he
      rcases he with he | he <;> subst he
      · simp [withDefaultCopies_other (show "isbn" ≠ "nCopies" by decide), hi,
          Value.isUndef, Value.isStr]
      · simp [withDefaultCopies_other (show "title" ≠ "nCopies" by decide), ht,
          Value.isUndef, Value.isStr]
    have hbadty : isStringArr (withDefaultCopies req "authors") = false := by
      rw [withDefaultCopies_other (by decide), h]
      show (xs.all Value.isStr && decide (xs.length > 0)) = false
      have hall : xs.all Value.isStr = false := by
        cases hc : xs.all Value.isStr with
        | false => rfl
        | true =>
          have := List.all_eq_true.1 hc x hx
          rw [hxs] at this
          cases this
      rw [hall, Bool.false_and]
    have hv : validate (withDefaultCopies req)
        ([("isbn", Value.isStr), ("title", Value.isStr)] ++
          ("authors", isStringArr) ::
          [("pages", Value.isNum), ("year", Value.isNum),
           ("publisher", Value.isStr), ("nCopies", Value.isNum)])
        addSemChecker = some ⟨.BAD_TYPE, "authors"⟩ :=
      validate_badtype htp1
        (by rw [withDefaultCopies_other (by decide), h]; rfl) hbadty
    rw [show validate (withDefaultCopies req) addTypeChecker addSemChecker =
        some ⟨.BAD_TYPE, "authors"⟩ from hv]
  · intro i t auth hi ht ha hane h
    unfold addBook
    have htp1 : typesPass (withDefaultCopies req)
        [("isbn", Value.isStr), ("title", Value.isStr),
         ("authors", isStringArr)] := by
      intro e he
      simp only [List.mem_cons, List.not_mem_nil, or_false] at he
      rcases he with he | he | he <;> subst he
      · simp [withDefaultCopies_other (show "isbn" ≠ "nCopies" by decide), hi,
          Value.isUndef, Value.isStr]
      · simp [withDefaultCopies_other (show "title" ≠ "nCopies" by decide), ht,
          Value.isUndef, Value.isStr]
      · rw [withDefaultCopies_other (show "authors" ≠ "nCopies" by decide), ha]
        refine ⟨rfl, ?_⟩
        show ((auth.map Value.str).all Value.isStr &&
          decide ((auth.map Value.str).length > 0)) = true
        rw [Bool.and_eq_true]
        constructor
        · rw [List.all_eq_true]
          intro y hy
          obtain ⟨a, -, hay⟩ := List.mem_map.1 hy
          rw [← hay]
          rfl
        · simp [List.length_pos, hane]
    have hv : validate (withDefaultCopies req)
        ([("isbn", Value.isStr), ("title", Value.isStr),
          ("authors", isStringArr)] ++
          ("pages", Value.isNum) ::
          [("year", Value.isNum), ("publisher", Value.isStr),
           ("nCopies", Value.isNum)])
        addSemChecker = some ⟨.MISSING, "pages"⟩ :=
      validate_missing htp1
        (by rw [withDefaultCopies_other (by decide), h]; rfl)
    rw [show validate (withDefaultCopies req) addTypeChecker addSemChecker =
        some ⟨.MISSING, "pages"⟩ from hv]
  · intro i t auth pg hi ht ha hane hpg h
    unfold addBook
    have htp1 : typesPass (withDefaultCopies req)
        [("isbn", Value.isStr), ("title", Value.isStr),
         ("authors", isStringArr), ("pages", Value.isNum)] := by
      intro e he
      simp only [List.mem_cons, List.not_mem_nil, or_false] at he
      rcases he with he | he | he | he <;> subst he
      · simp [withDefaultCopies_other (show "isbn" ≠ "nCopies" by decide), hi,
          Value.isUndef, Value.isStr]
      · simp [withDefaultCopies_other (show "title" ≠ "nCopies" by decide), ht,
          Value.isUndef, Value.isStr]
      · rw [withDefaultCopies_other (show "authors" ≠ "nCopies" by decide), ha]
        refine ⟨rfl, ?_⟩
        show ((auth.map Value.str).all Value.isStr &&
          decide ((auth.map Value.str).length > 0)) = true
        rw [Bool.and_eq_true]
        refine ⟨?_, by simp [List.length_pos, hane]⟩
        rw [List.all_eq_true]
        intro y hy
        obtain ⟨a, -, hay⟩ := List.mem_map.1 hy
        rw [← hay]
        rfl
      · simp [withDefaultCopies_other (show "pages" ≠ "nCopies" by decide), hpg,
          Value.isUndef, Value.isNum]
    have hv : validate (withDefaultCopies req)
        ([("isbn", Value.isStr), ("title", Value.isStr),
          ("authors", isStringArr), ("pages", Value.isNum)] ++
          ("year", Value.isNum) ::
          [("publisher", Value.isStr), ("nCopies", Value.isNum)])
        addSemChecker = some ⟨.MISSING, "year"⟩ :=
      validate_missing htp1
        (by rw [withDefaultCopies_other (by decide), h]; rfl)
    rw [show validate (withDefaultCopies req) addTypeChecker addSemChecker =
        some ⟨.MISSING, "year"⟩ from hv]
  · intro i t auth pg yr hi ht ha hane hpg hyr h
    unfold addBook
    have htp1 : typesPass (withDefaultCopies req)
        [("isbn", Value.isStr), ("title", Value.isStr),
         ("authors", isStringArr), ("pages", Value.isNum),
         ("year", Value.isNum)] := by
      intro e he
      simp only [List.mem_cons, List.not_mem_nil, or_false] at he
      rcases he with he | he | he | he | he <;> subst he
      · simp [withDefaultCopies_other (show "isbn" ≠ "nCopies" by decide), hi,
          Value.isUndef, Value.isStr]
      · simp [withDefaultCopies_other (show "title" ≠ "nCopies" by decide), ht,
          Value.isUndef, Value.isStr]
      · rw [withDefaultCopies_other (show "authors" ≠ "nCopies" by decide), ha]
        refine ⟨rfl, ?_⟩
        show ((auth.map Value.str).all Value.isStr &&
          decide ((auth.map Value.str).length > 0)) = true
        rw [Bool.and_eq_true]
        refine ⟨?_, by simp [List.length_pos, hane]⟩
        rw [List.all_eq_true]
        intro y hy
        obtain ⟨a, -, hay⟩ := List.mem_map.1 hy
        rw [← hay]
        rfl
      · simp [withDefaultCopies_other (show "pages" ≠ "nCopies" by decide), hpg,
          Value.isUndef, Value.isNum]
      · simp [withDefaultCopies_other (show "year" ≠ "nCopies" by decide), hyr,
          Value.isUndef, Value.isNum]
    have hv : validate (withDefaultCopies req)
        ([("isbn", Value.isStr), ("title", Value.isStr),
          ("authors", isStringArr), ("pages", Value.isNum),
          ("year", Value.isNum)] ++
          ("publisher", Value.isStr) :: [("nCopies", Value.isNum)])
        addSemChecker = some ⟨.MISSING, "publisher"⟩ :=
      validate_missing htp1
        (by rw [withDefaultCopies_other (by decide), h]; rfl)
    rw [show validate (withDefaultCopies req) addTypeChecker addSemChecker =
        some ⟨.MISSING, "publisher"⟩ from hv]
  · intro i t pub auth pg yr hshape hbad
    unfold addBook
    have hfail : ([Value.isIntegerNum, Value.isPos].all
        (fun pr => pr (withDefaultCopies req "pages"))) = false := by
      rw [withDefaultCopies_other (by decide), hshape.2.2.2.2.1]
      simp only [List.all_cons, List.all_nil, Bool.and_true]
      rcases hbad with hd | hp
      · have h1 : Value.isIntegerNum (Value.num pg) = false := by
          simp [Value.isIntegerNum, hd]
        rw [h1, Bool.false_and]
      · have h1 : Value.isPos (Value.num pg) = false := by
          simp only [Value.isPos]
          exact decide_eq_false (not_lt.2 hp)
        rw [h1, Bool.and_false]
    have hv : validate (withDefaultCopies req) addTypeChecker
        ([] ++ ("pages", [Value.isIntegerNum, Value.isPos]) ::
          [("year", [Value.isIntegerNum, Value.isPos]),
           ("nCopies", [Value.isIntegerNum, Value.isPos])]) =
        some ⟨.BAD_REQ, "pages"⟩ :=
      validate_badreq (addTypesPass hshape)
        (fun e he => absurd he (List.not_mem_nil e)) hfail
    rw [show validate (withDefaultCopies req) addTypeChecker addSemChecker =
        some ⟨.BAD_REQ, "pages"⟩ from hv]
  · intro i t pub auth pg yr hshape hpgd hpgp hbad
    unfold addBook
    have hsem1 : semPass (withDefaultCopies req)
        [("pages", [Value.isIntegerNum, Value.isPos])] := by
      intro e he
      simp only [List.mem_singleton] at he
      subst he
      intro pr hpr
      simp only [List.mem_cons, List.not_mem_nil, or_false] at hpr
      rcases hpr with hpr | hpr <;> subst hpr <;>
        rw [withDefaultCopies_other (by decide), hshape.2.2.2.2.1]
      · simp [Value.isIntegerNum, hpgd]
      · simp [Value.isPos, hpgp]
    have hfail : ([Value.isIntegerNum, Value.isPos].all
        (fun pr => pr (withDefaultCopies req "year"))) = false := by
      rw [withDefaultCopies_other (by decide), hshape.2.2.2.2.2.1]
      simp only [List.all_cons, List.all_nil, Bool.and_true]
      rcases hbad with hd | hp
      · have h1 : Value.isIntegerNum (Value.num yr) = false := by
          simp [Value.isIntegerNum, hd]
        rw [h1, Bool.false_and]
      · have h1 : Value.isPos (Value.num yr) = false := by
          simp only [Value.isPos]
          exact decide_eq_false (not_lt.2 hp)
        rw [h1, Bool.and_false]
    have hv : validate (withDefaultCopies req) addTypeChecker
        ([("pages", [Value.isIntegerNum, Value.isPos])] ++
          ("year", [Value.isIntegerNum, Value.isPos]) ::
          [("nCopies", [Value.isIntegerNum, Value.isPos])]) =
        some ⟨.BAD_REQ, "year"⟩ :=
      validate_badreq (addTypesPass hshape) hsem1 hfail
    rw [show validate (withDefaultCopies req) addTypeChecker addSemChecker =
        some ⟨.BAD_REQ, "year"⟩ from hv]
  · intro i t pub auth pg yr c hshape hpgd hpgp hyrd hyrp hc hbad
    unfold addBook
    have hsem1 : semPass (withDefaultCopies req)
        [("pages", [Value.isIntegerNum, Value.isPos]),
         ("year", [Value.isIntegerNum, Value.isPos])] := by
      intro e he
      simp only [List.mem_cons, List.not_mem_nil, or_false] at he
      rcases he with he | he <;> subst he <;> intro pr hpr <;>
        simp only [List.mem_cons, List.not_mem_nil, or_false] at hpr
      · rcases hpr with hpr | hpr <;> subst hpr <;>
          rw [withDefaultCopies_other (by decide), hshape.2.2.2.2.1]
        · simp [Value.isIntegerNum, hpgd]
        · simp [Value.isPos, hpgp]
      · rcases hpr with hpr | hpr <;> subst hpr <;>
          rw [withDefaultCopies_other (by decide), hshape.2.2.2.2.2.1]
        · simp [Value.isIntegerNum, hyrd]
        · simp [Value.isPos, hyrp]
    have hfail : ([Value.isIntegerNum, Value.isPos].all
        (fun pr => pr (withDefaultCopies req "nCopies"))) = false := by
      rw [withDefaultCopies_nCopies, hc]
      simp only [List.all_cons, List.all_nil, Bool.and_true]
      rcases hbad with hd | hp
      · have h1 : Value.isIntegerNum (Value.num c) = false := by
          simp [Value.isIntegerNum, hd]
        rw [h1, Bool.false_and]
      · have h1 : Value.isPos (Value.num c) = false := by
          simp only [Value.isPos]
          exact decide_eq_false (not_lt.2 hp)
        rw [h1, Bool.and_false]
    have hv : validate (withDefaultCopies req) addTypeChecker
        ([("pages", [Value.isIntegerNum, Value.isPos]),
          ("year", [Value.isIntegerNum, Value.isPos])] ++
          ("nCopies", [Value.isIntegerNum, Value.isPos]) :: []) =
        some ⟨.BAD_REQ, "nCopies"⟩ :=
      validate_badreq (addTypesPass hshape) hsem1 hfail
    rw [show validate (withDefaultCopies req) addTypeChecker addSemChecker =
        some ⟨.BAD_REQ, "nCopies"⟩ from hv]
  · intro i hi h2 h3
    unfold addBook
    have htp1 : typesPass (withDefaultCopies req) [("isbn", Value.isStr)] := by
      intro e he
      simp only [List.mem_singleton] at he
      subst he
      simp [withDefaultCopies_other (show "isbn" ≠ "nCopies" by decide), hi,
        Value.isUndef, Value.isStr]
    have hv : validate (withDefaultCopies req)
        ([("isbn", Value.isStr)] ++ ("title", Value.isStr) ::
          [("authors", isStringArr),
           ("pages", Value.isNum), ("year", Value.isNum),
           ("publisher", Value.isStr), ("nCopies", Value.isNum)])
        addSemChecker = some ⟨.BAD_TYPE, "title"⟩ :=
      validate_badtype htp1
        (by rw [withDefaultCopies_other (by decide)]; exact h2)
        (by rw [withDefaultCopies_other (by decide)]; exact h3)
    rw [show validate (withDefaultCopies req) addTypeChecker addSemChecker =
        some ⟨.BAD_TYPE, "title"⟩ from hv]
  · intro i t auth pg yr hi ht ha hane hpg hyr h2 h3
    unfold addBook
    have htp1 : typesPass (withDefaultCopies req)
        [("isbn", Value.isStr), ("title", Value.isStr),
         ("authors", isStringArr), ("pages", Value.isNum),
         ("year", Value.isNum)] := by
      intro e he
      simp only [List.mem_cons, List.not_mem_nil, or_false] at he
      rcases he with he | he | he | he | he <;> subst he
      · simp [withDefaultCopies_other (show "isbn" ≠ "nCopies" by decide), hi,
          Value.isUndef, Value.isStr]
      · simp [withDefaultCopies_other (show "title" ≠ "nCopies" by decide), ht,
          Value.isUndef, Value.isStr]
      · rw [withDefaultCopies_other (show "authors" ≠ "nCopies" by decide), ha]
        refine ⟨rfl, ?_⟩
        show ((auth.map Value.str).all Value.isStr &&
          decide ((auth.map Value.str).length > 0)) = true
        rw [Bool.and_eq_true]
        refine ⟨?_, by simp [List.length_pos, hane]⟩
        rw [List.all_eq_true]
        intro y hy
        obtain ⟨a, -, hay⟩ := List.mem_map.1 hy
        rw [← hay]
        rfl
      · simp [withDefaultCopies_other (show "pages" ≠ "nCopies" by decide), hpg,
          Value.isUndef, Value.isNum]
      · simp [withDefaultCopies_other (show "year" ≠ "nCopies" by decide), hyr,
          Value.isUndef, Value.isNum]
    have hv : validate (withDefaultCopies req)
        ([("isbn", Value.isStr), ("title", Value.isStr),
          ("authors", isStringArr), ("pages", Value.isNum),
          ("year", Value.isNum)] ++
          ("publisher", Value.isStr) :: [("nCopies", Value.isNum)])
        addSemChecker = some ⟨.BAD_TYPE, "publisher"⟩ :=
      validate_badtype htp1
        (by rw [withDefaultCopies_other (by decide)]; exact h2)
        (by rw [withDefaultCopies_other (by decide)]; exact h3)
    rw [show validate (withDefaultCopies req) addTypeChecker addSemChecker =
        some ⟨.BAD_TYPE, "publisher"⟩ from hv]

/-- An addBook request whose `authors` array is empty. -/
def reqEmptyAuthors : Request := fun k =>
  if k == "isbn" then .str "x" else if k == "title" then .str "T"
  else if k == "authors" then .arr [] else if k == "pages" then .num 10
  else if k == "year" then .num 2000 else if k == "publisher" then .str "P"
  else .undef

theorem addBook_error_taxonomy_witness :
    addBook emptyLibrary reqEmptyAuthors =
      (.err ⟨.BAD_TYPE, "authors"⟩, emptyLibrary) :=
  addBook_error_taxonomy.2.2.2.2.1 emptyLibrary reqEmptyAuthors "x" "T" rfl rfl rfl

/-- C8: `findBooks` on a search string with no word longer than one
character fails `BAD_REQ`; otherwise it returns exactly the books whose
lower-cased title/authors/publisher text contains every extracted word of
length greater than one as a substring, sorted ascending by title (the
locale-aware comparator is modelled as lexicographic order on titles), and
the state is unchanged. -/
theorem findBooks_semantics (lib : LendingLibrary) (req : Request) (s : String)
    (hs : req "search" = .str s) :
    ((∀ w ∈ matchWords s, w.length ≤ 1) →
      findBooks lib req = (.err ⟨.BAD_REQ, "search"⟩, lib)) ∧
    ((∃ w ∈ matchWords s, 1 < w.length) →
      ∃ res, findBooks lib req = (.ok res, lib) ∧
        res.Perm (lib.books.filter (bookMatches (searchWords s))) ∧
        List.Sorted titleLe res ∧
        (∀ b, b ∈ res ↔ b ∈ lib.books ∧
          ∀ w ∈ searchWords s, w <:+: (lowerStr (bookText b)).data)) := by
  have htp : typesPass req findTypeChecker := by
    intro e he
    simp only [findTypeChecker, List.mem_singleton] at he
    subst he
    simp [hs, Value.isUndef, Value.isStr]
  constructor
  · intro hno
    have hfail : ([fun x => (matchWords x.asStr).any
        (fun w => decide (w.length > 1))] : List (Value → Bool)).all
        (fun pr => pr (req "search")) = false := by
      simp only [List.all_cons, List.all_nil, Bool.and_true]
      rw [hs]
      simp only [Value.asStr, List.any_eq_false]
      intro w hw
      simp only [decide_eq_true_eq, gt_iff_lt, not_lt]
      exact hno w hw
    have hv : validate req findTypeChecker
        ([] ++ ("search", [fun x => (matchWords x.asStr).any
          (fun w => decide (w.length > 1))]) :: []) =
        some ⟨.BAD_REQ, "search"⟩ :=
      validate_badreq htp (fun e he => absurd he (List.not_mem_nil e)) hfail
    unfold findBooks
    rw [show validate req findTypeChecker findSemChecker =
        some ⟨.BAD_REQ, "search"⟩ from hv]
  · intro hyes
    have hsem : semPass req findSemChecker := by
      intro e he
      simp only [findSemChecker, List.mem_singleton] at he
      subst he
      intro pr hpr
      simp only [List.mem_singleton] at hpr
      subst hpr
      rw [hs]
      simp only [Value.asStr, List.any_eq_true]
      obtain ⟨w, hw, hlen⟩ := hyes
      exact ⟨w, hw, by simpa using hlen⟩
    have hv : validate req findTypeChecker findSemChecker = none :=
      validate_eq_none.2 ⟨htp, hsem⟩
    unfold findBooks
    rw [hv, hs]
    simp only [Value.asStr]
    refine ⟨_, rfl, List.perm_insertionSort titleLe _,
      List.sorted_insertionSort titleLe _, ?_⟩
    intro b
    rw [List.mem_insertionSort, List.mem_filter]
    unfold bookMatches
    rw [List.all_eq_true]
    constructor
    · rintro ⟨hb, hall⟩
      exact ⟨hb, fun w hw => isInfixB_iff.1 (hall w hw)⟩
    · rintro ⟨hb, hall⟩
      exact ⟨hb, fun w hw => isInfixB_iff.2 (hall w hw)⟩

theorem findBooks_semantics_witness :
    ∃ res, findBooks libOne (findReq "effective") = (.ok res, libOne) ∧
      res.Perm (libOne.books.filter (bookMatches (searchWords "effective"))) ∧
      List.Sorted titleLe res ∧
      (∀ b, b ∈ res ↔ b ∈ libOne.books ∧
        ∀ w ∈ searchWords "effective", w <:+: (lowerStr (bookText b)).data) :=
  (findBooks_semantics libOne (findReq "effective") "effective" rfl).2
    ⟨"effective".data, by decide, by decide⟩

theorem getBook_first_dup {lib : LendingLibrary} {pre tail : List XBook} {b1 : XBook}
    {s : String} (hb : lib.books = pre ++ b1 :: tail)
    (hpre : ∀ b ∈ pre, b.isbn ≠ s) (h1 : b1.isbn = s) :
    lib.getBook s = some b1 := by
  unfold LendingLibrary.getBook
  rw [hb, List.find?_append]
  rw [List.find?_eq_none.2 (by intro x hx; simp [hpre x hx])]
  rw [Option.none_or, List.find?_cons]
  simp [h1]

theorem getBook_replace {L1 post : List XBook} {b2 b2' : XBook} {co : CheckoutMap}
    (hex : ∃ bb ∈ L1, bb.isbn = b2.isbn) (h2' : b2'.isbn = b2.isbn) :
    ∀ x, LendingLibrary.getBook ⟨L1 ++ b2 :: post, co⟩ x =
      LendingLibrary.getBook ⟨L1 ++ b2' :: post, co⟩ x := by
  intro x
  unfold LendingLibrary.getBook
  simp only
  rw [List.find?_append, List.find?_append]
  cases hf : L1.find? (fun b => b.isbn == x) with
  | some m => rfl
  | none =>
    by_cases hx : b2.isbn == x
    · exfalso
      obtain ⟨bb, hbb, hbbs⟩ := hex
      apply List.find?_eq_none.1 hf bb hbb
      rw [hbbs]
      exact hx
    · have hx2 : (b2.isbn == x) = false := by simpa using hx
      have hx2' : (b2'.isbn == x) = false := by rw [h2']; exact hx2
      rw [List.find?_cons, List.find?_cons]
      simp only [hx2, hx2']

theorem booksAny_replace {L1 post : List XBook} {b2 b2' : XBook}
    (h2' : b2'.isbn = b2.isbn) (v : Value) :
    (L1 ++ b2 :: post).any (fun b => v.eqStr b.isbn) =
    (L1 ++ b2' :: post).any (fun b => v.eqStr b.isbn) := by
  rw [List.any_append, List.any_append, List.any_cons, List.any_cons, h2']

theorem checkout_replace {L1 post : List XBook} {b2 b2' : XBook} {co : CheckoutMap}
    (hex : ∃ bb ∈ L1, bb.isbn = b2.isbn) (h2' : b2'.isbn = b2.isbn) (req : Request) :
    (checkoutBook ⟨L1 ++ b2 :: post, co⟩ req).1 =
      (checkoutBook ⟨L1 ++ b2' :: post, co⟩ req).1 ∧
    (checkoutBook ⟨L1 ++ b2 :: post, co⟩ req).2.checkout =
      (checkoutBook ⟨L1 ++ b2' :: post, co⟩ req).2.checkout := by
  have hgb := @getBook_replace L1 post b2 b2' co hex h2'
  have hp2 : ∀ v : Value,
      (match LendingLibrary.getBook ⟨L1 ++ b2 :: post, co⟩ v.asStr with
       | some bk => inStock ⟨L1 ++ b2 :: post, co⟩ bk
       | none => false) =
      (match LendingLibrary.getBook ⟨L1 ++ b2' :: post, co⟩ v.asStr with
       | some bk => inStock ⟨L1 ++ b2' :: post, co⟩ bk
       | none => false) := by
    intro v
    rw [hgb v.asStr]
    rfl
  have hp3 : ∀ v : Value,
      (let p := req "patronId"
       if mapHas (⟨L1 ++ b2 :: post, co⟩ : LendingLibrary).checkout p.asStr then
         match LendingLibrary.getBook ⟨L1 ++ b2 :: post, co⟩ v.asStr with
         | some bk => !((mapGet (⟨L1 ++ b2 :: post, co⟩ : LendingLibrary).checkout
             p.asStr).getD []).any (fun y => areEqual bk y)
         | none => true
       else true) =
      (let p := req "patronId"
       if mapHas (⟨L1 ++ b2' :: post, co⟩ : LendingLibrary).checkout p.asStr then
         match LendingLibrary.getBook ⟨L1 ++ b2' :: post, co⟩ v.asStr with
         | some bk => !((mapGet (⟨L1 ++ b2' :: post, co⟩ : LendingLibrary).checkout
             p.asStr).getD []).any (fun y => areEqual bk y)
         | none => true
       else true) := by
    intro v
    show (if mapHas co (req "patronId").asStr then
        match LendingLibrary.getBook ⟨L1 ++ b2 :: post, co⟩ v.asStr with
        | some bk => !((mapGet co (req "patronId").asStr).getD []).any
            (fun y => areEqual bk y)
        | none => true
      else true) =
      (if mapHas co (req "patronId").asStr then
        match LendingLibrary.getBook ⟨L1 ++ b2' :: post, co⟩ v.asStr with
        | some bk => !((mapGet co (req "patronId").asStr).getD []).any
            (fun y => areEqual bk y)
        | none => true
      else true)
    rw [hgb v.asStr]
  have hsem : checkSemantics req (coSemChecker ⟨L1 ++ b2 :: post, co⟩ req) =
      checkSemantics req (coSemChecker ⟨L1 ++ b2' :: post, co⟩ req) := by
    unfold coSemChecker
    simp only [checkSemantics, List.all_cons, List.all_nil, Bool.and_true]
    have e1 := @booksAny_replace L1 post b2 b2' h2' (req "isbn")
    have e2 := hp2 (req "isbn")
    have e3 := hp3 (req "isbn")
    rw [e1, e2, e3]
  unfold checkoutBook
  unfold validate
  cases hct : checkTypes req coTypeChecker with
  | some e => exact ⟨rfl, rfl⟩
  | none =>
    rw [hsem]
    cases hcs : checkSemantics req (coSemChecker ⟨L1 ++ b2' :: post, co⟩ req) with
    | some e => exact ⟨rfl, rfl⟩
    | none =>
      rw [hgb (req "isbn").asStr]
      cases hm : LendingLibrary.getBook ⟨L1 ++ b2' :: post, co⟩ (req "isbn").asStr with
      | some bk => exact ⟨rfl, rfl⟩
      | none => exact ⟨rfl, rfl⟩

/-- C10: two successful `addBook` calls with the same isbn store both
records; every `checkoutBook` decision resolves the isbn to the first
matching record, so replacing the later duplicate record (in particular its
`nCopies`) never changes a checkout outcome, and in reachable states the
number of simultaneous holders of the isbn is bounded by the first record's
`nCopies`. -/
theorem duplicate_isbn_resolution :
    (∀ (lib0 : LendingLibrary) (req1 req2 : Request) (bk1 bk2 : XBook),
      (addBook lib0 req1).1 = .ok bk1 →
      (addBook (addBook lib0 req1).2 req2).1 = .ok bk2 →
      (addBook (addBook lib0 req1).2 req2).2.books = lib0.books ++ [bk1, bk2]) ∧
    (∀ (lib : LendingLibrary) (pre tail : List XBook) (b1 : XBook) (s : String),
      lib.books = pre ++ b1 :: tail → (∀ b ∈ pre, b.isbn ≠ s) → b1.isbn = s →
      lib.getBook s = some b1) ∧
    (∀ (L1 post : List XBook) (b2 b2' : XBook) (co : CheckoutMap) (req : Request),
      (∃ bb ∈ L1, bb.isbn = b2.isbn) → b2'.isbn = b2.isbn →
      (checkoutBook ⟨L1 ++ b2 :: post, co⟩ req).1 =
        (checkoutBook ⟨L1 ++ b2' :: post, co⟩ req).1 ∧
      (checkoutBook ⟨L1 ++ b2 :: post, co⟩ req).2.checkout =
        (checkoutBook ⟨L1 ++ b2' :: post, co⟩ req).2.checkout) ∧
    (∀ (lib : LendingLibrary) (pre tail : List XBook) (b1 : XBook) (s : String),
      Reachable lib → lib.books = pre ++ b1 :: tail →
      (∀ b ∈ pre, b.isbn ≠ s) → b1.isbn = s →
      (patronsHolding lib.checkout s : ℚ) ≤ b1.nCopies) := by
  refine ⟨?_, ?_, ?_, ?_⟩
  · intro lib0 req1 req2 bk1 bk2 h1 h2
    obtain ⟨hs2, -⟩ := addBook_ok_elim h2
    obtain ⟨hs1, -⟩ := addBook_ok_elim h1
    rw [hs2]
    show (addBook lib0 req1).2.books ++ [bk2] = lib0.books ++ [bk1, bk2]
    rw [hs1]
    show (lib0.books ++ [bk1]) ++ [bk2] = lib0.books ++ [bk1, bk2]
    simp
  · intro lib pre tail b1 s hb hpre h1
    exact getBook_first_dup hb hpre h1
  · intro L1 post b2 b2' co req hex h2'
    exact checkout_replace hex h2' req
  · intro lib pre tail b1 s hreach hb hpre h1
    have hg := getBook_first_dup hb hpre h1
    have hsb := (reachable_inv hreach).stockBound s b1 hg
    have hle := patronsHolding_le_entriesCount lib.checkout s
    calc (patronsHolding lib.checkout s : ℚ)
        ≤ (entriesCount lib.checkout s : ℚ) := by exact_mod_cast hle
      _ ≤ b1.nCopies := hsb

/-- A second record with the same isbn `b1` but five copies. -/
def reqDup : Request := fun k =>
  if k == "isbn" then .str "b1" else if k == "title" then .str "Duplicate"
  else if k == "authors" then .arr [.str "A"] else if k == "pages" then .num 1
  else if k == "year" then .num 1 else if k == "publisher" then .str "P"
  else if k == "nCopies" then .num 5 else (Value.undef)

/-- `libHeld` after a duplicate record for `b1` was added. -/
def libDup : LendingLibrary := (addBook libHeld reqDup).2

theorem duplicate_isbn_resolution_witness :
    (patronsHolding libDup.checkout "b1" : ℚ) ≤ bkEff.nCopies :=
  duplicate_isbn_resolution.2.2.2 libDup []
    [⟨"b1", "Duplicate", ["A"], 1, 1, "P", 5⟩] bkEff "b1"
    (Reachable.add reqDup (Reachable.co (coReq "alice" "b1")
      (Reachable.add bookReq1 Reachable.init)))
    (by decide) (fun b hb => absurd hb (List.not_mem_nil b)) rfl
